import Mathlib

/-!
Shallow embedding of the quiz analytics and spaced-revision subsystem of
`backend/app1.py`: the pure cores of the endpoints `quiz_performance`,
`revision_quiz`, `dashboard_overview`, `dashboard_material` and
`user_dashboard`.

Modelling conventions:
* Python ints are `Nat` (all counters are non-negative), Python floats
  arising from exact divisions of counters are `ℚ`.
* JSON string keys `str(idx)` of the `per_question` dict are modelled by
  the `Nat` they print (the code writes keys only via `str(idx)` and reads
  them back via `int(idx_str)`).
* Python dicts are insertion-ordered association lists: assignment to an
  existing key updates it in place, a new key is appended at the end.
* `answers.get(str(idx))` (absent key or JSON null both give `None`) is
  modelled as a function `Nat → Option String`.
* Database access, HTTP plumbing and the display-only rounding
  `round(x, k)` of the dashboards are outside the embedding; where the
  source multiplies a fraction by 100 before rounding, the factor 100 is
  kept and only the rounding is dropped.
-/

namespace AITution

/-- One quiz question as stored in the `quiz` JSON column; the code reads
`q["question"]`, `q.get("options")` and `q.get("answer")` (possibly absent). -/
structure Question where
  question : String
  options : List String
  answer : Option String
deriving Repr, DecidableEq, Inhabited

/-- Cumulative per-question statistics, defaulted to
`{"correct": 0, "skipped": 0, "attempts": 0}` when the index is absent. -/
structure QuestionStats where
  correct : Nat
  skipped : Nat
  attempts : Nat
deriving Repr, DecidableEq, Inhabited

/-- The `per_question` dict: an insertion-ordered association list from
question index to its cumulative statistics. -/
abbrev PerQuestion := List (Nat × QuestionStats)

/-- First-match lookup in an association list (Python `d.get(k)`). -/
def lookupA {κ σ : Type} [DecidableEq κ] (k : κ) : List (κ × σ) → Option σ
  | [] => none
  | (k2, s) :: rest => if k2 = k then some s else lookupA k rest

/-- Python `d[k] = v`: update the existing entry in place, else append. -/
def pqInsert (pq : PerQuestion) (i : Nat) (s : QuestionStats) : PerQuestion :=
  match pq with
  | [] => [(i, s)]
  | (k, t) :: rest => if k = i then (k, s) :: rest else (k, t) :: pqInsert rest i s

/-- Python `per_question.get(str(idx), {"correct": 0, "skipped": 0, "attempts": 0})`. -/
def pqGetD (pq : PerQuestion) (i : Nat) : QuestionStats :=
  (lookupA i pq).getD ⟨0, 0, 0⟩

/-- One row of the `details` list built by `quiz_performance`. -/
structure Detail where
  index : Nat
  question : String
  options : List String
  correct_answer : Option String
  selected_answer : Option String
  is_correct : Bool
deriving Repr, DecidableEq

/-- Loop state of the evaluation loop of `quiz_performance`
(lines 743-782): the three counters, the detail list and the
`per_question` stats being folded. -/
structure EvalState where
  correct : Nat
  wrong : Nat
  skipped : Nat
  details : List Detail
  per_question : PerQuestion
deriving Repr, DecidableEq

/-- One iteration of the `for idx in attempt_indices` loop of
`quiz_performance`: classify the submitted answer as skipped, correct or
wrong, bump the matching counters, fold the per-question stats and append
the detail row. -/
def stepIndex (quiz : List Question) (answers : Nat → Option String)
    (st : EvalState) (idx : Nat) : EvalState :=
  let q := quiz.getD idx default
  let qstats := pqGetD st.per_question idx
  match answers idx with
  | none =>
      { correct := st.correct, wrong := st.wrong, skipped := st.skipped + 1,
        details := st.details ++
          [{ index := idx, question := q.question, options := q.options,
             correct_answer := q.answer, selected_answer := none, is_correct := false }],
        per_question := pqInsert st.per_question idx
          { qstats with attempts := qstats.attempts + 1, skipped := qstats.skipped + 1 } }
  | some sel =>
      if some sel = q.answer then
        { correct := st.correct + 1, wrong := st.wrong, skipped := st.skipped,
          details := st.details ++
            [{ index := idx, question := q.question, options := q.options,
               correct_answer := q.answer, selected_answer := some sel, is_correct := true }],
          per_question := pqInsert st.per_question idx
            { qstats with attempts := qstats.attempts + 1, correct := qstats.correct + 1 } }
      else
        { correct := st.correct, wrong := st.wrong + 1, skipped := st.skipped,
          details := st.details ++
            [{ index := idx, question := q.question, options := q.options,
               correct_answer := q.answer, selected_answer := some sel, is_correct := false }],
          per_question := pqInsert st.per_question idx
            { qstats with attempts := qstats.attempts + 1 } }

/-- The whole evaluation loop of `quiz_performance`, started from zeroed
counters and the loaded `per_question` stats. -/
def evalAttempt (quiz : List Question) (answers : Nat → Option String)
    (pq0 : PerQuestion) (indices : List Nat) : EvalState :=
  indices.foldl (stepIndex quiz answers) ⟨0, 0, 0, [], pq0⟩

/-- The range filter inside the revision branch: `int(r)` kept only when
`0 <= idx < n_quiz`. -/
def inRangeIndex (n_quiz : Nat) (r : Int) : Option Nat :=
  if 0 ≤ r ∧ r < (n_quiz : Int) then some r.toNat else none

/-- The seen-set duplicate filter
`[x for x in attempt_indices if not (x in seen or seen.add(x))]`:
keeps the first occurrence of each value. -/
def pyDedup (seen : List Nat) : List Nat → List Nat
  | [] => []
  | x :: xs => if x ∈ seen then pyDedup seen xs else x :: pyDedup (x :: seen) xs

/-- Lines 723-737 of `quiz_performance`: in revision mode with a non-empty
index list, filter to range and deduplicate; otherwise the whole quiz.
`raw = none` models a `question_indices` value that is absent or not a
list. -/
def attemptIndicesOf (mode : String) (raw : Option (List Int)) (n_quiz : Nat) : List Nat :=
  match raw with
  | some rs =>
      if mode = "revision" ∧ rs ≠ [] then pyDedup [] (rs.filterMap (inRangeIndex n_quiz))
      else List.range n_quiz
  | none => List.range n_quiz

/-- One record of the `history` list (the `item` dict of lines 790-801). -/
structure AttemptItem where
  mode : String
  score : ℚ
  correct : Nat
  wrong : Nat
  skipped : Nat
  attempted : Nat
  total_questions : Nat
  accuracy : ℚ
  attempt_no : Nat
  created_at : String
deriving Repr, DecidableEq, Inhabited

/-- One record of the rebuilt `last_unsolved` list (lines 809-814). -/
structure UnsolvedEntry where
  index : Nat
  question : String
  options : List String
  correct_answer : Option String
deriving Repr, DecidableEq

/-- The `quiz_stats` JSON blob of a study material. -/
structure QuizStats where
  per_question : PerQuestion
  history : List AttemptItem
  last_unsolved : List UnsolvedEntry
deriving Repr, DecidableEq, Inhabited

/-- Lines 804-814: scan the entire quiz in order and collect every index
whose cumulative stats show `attempts > 0 and correct == 0`. -/
def rebuildLastUnsolved (quiz : List Question) (pq : PerQuestion) : List UnsolvedEntry :=
  (List.range quiz.length).filterMap (fun idx =>
    let q := quiz.getD idx default
    let stats := pqGetD pq idx
    if 0 < stats.attempts ∧ stats.correct = 0 then
      some { index := idx, question := q.question, options := q.options,
             correct_answer := q.answer }
    else none)

/-- Line 699: `mode = (data.get("mode") or "normal").lower()`, with an
absent or falsy mode value modelled as `""`. -/
def qpModeOf (modeRaw : String) : String :=
  (if modeRaw = "" then "normal" else modeRaw).toLower

/-- Pure core of the `quiz_performance` endpoint, after the material with
quiz `quiz` and stats `qs` has been loaded: returns the updated
`quiz_stats` and the freshly appended attempt record, or the
`"No valid question indices"` error.  `ts` stands for
`datetime.utcnow().isoformat()`; `modeRaw` is `data.get("mode")` with
absence modelled as `""` (the source applies `or "normal"` then
`.lower()`). -/
def quiz_performance (quiz : List Question) (qs : QuizStats)
    (answers : Nat → Option String) (modeRaw : String) (raw : Option (List Int))
    (ts : String) : Except String (QuizStats × AttemptItem) :=
  let mode := qpModeOf modeRaw
  let attempt_indices := attemptIndicesOf mode raw quiz.length
  if attempt_indices = [] then Except.error "No valid question indices"
  else
    let st := evalAttempt quiz answers qs.per_question attempt_indices
    let total_questions := attempt_indices.length
    let score : ℚ := st.correct
    let accuracy : ℚ := if 0 < total_questions then (st.correct : ℚ) / total_questions else 0
    let attempt_no := qs.history.length + 1
    let item : AttemptItem :=
      { mode := mode, score := score, correct := st.correct, wrong := st.wrong,
        skipped := st.skipped, attempted := st.correct + st.wrong,
        total_questions := total_questions, accuracy := accuracy,
        attempt_no := attempt_no, created_at := ts }
    Except.ok
      ({ per_question := st.per_question,
         history := qs.history ++ [item],
         last_unsolved := rebuildLastUnsolved quiz st.per_question }, item)

/-- One study-material row, as far as `quiz_performance` touches it. -/
structure Material where
  quiz : List Question
  quiz_stats : QuizStats

/-- Line 820: `supabase.table("study_materials").update({"quiz_stats": quiz_stats})`
writes only the `quiz_stats` column of the material row. -/
def updateMaterialStats (m : Material) (qs : QuizStats) : Material :=
  { m with quiz_stats := qs }

/-- The qualification predicate of `revision_quiz` (lines 668-672):
`accuracy = correct / attempts if attempts > 0 else 0`, then
`(attempts >= 1 and correct == 0) or (attempts >= 3 and accuracy < 0.5)`. -/
def needs_revision (stats : QuestionStats) : Prop :=
  (1 ≤ stats.attempts ∧ stats.correct = 0) ∨
    (3 ≤ stats.attempts ∧
      (if 0 < stats.attempts then (stats.correct : ℚ) / stats.attempts else 0) < 1 / 2)

instance (stats : QuestionStats) : Decidable (needs_revision stats) := by
  unfold needs_revision; infer_instance

/-- The collection loop of `revision_quiz` (lines 662-674): walk the
`per_question` mapping in its own iteration order and keep the indices
that need revision and are in range. -/
def revisionScan (n_quiz : Nat) : PerQuestion → List Nat
  | [] => []
  | (idx, stats) :: rest =>
      if needs_revision stats ∧ idx < n_quiz then idx :: revisionScan n_quiz rest
      else revisionScan n_quiz rest

/-- Pure core of the `revision_quiz` endpoint: the collected indices
truncated to `limit` (line 676). -/
def revision_quiz (quiz : List Question) (per_question : PerQuestion) (limit : Nat) : List Nat :=
  (revisionScan quiz.length per_question).take limit

/-- One row of the `quiz_performance` table (the `qp_row` insert of lines
823-835 plus the row timestamp `created_at` the dashboards read back;
Python `None` timestamps are modelled as `""`). -/
structure QPRow where
  user_id : String
  material_id : String
  correct_answers : Nat
  wrong_answers : Nat
  skipped : Nat
  total_questions : Nat
  score : ℚ
  accuracy : ℚ
  attempt_no : Nat
  created_at : String
deriving Repr, DecidableEq

/-- Grouping step shared by the dicts built row by row in
`dashboard_overview` (`materials_summary`) and `user_dashboard`
(`by_date`): look the key up, initialise a fresh entry for an unseen key
(appended at the end, as dict insertion does), then apply the per-row
update to the entry in place. -/
def groupStep {κ σ ρ : Type} [DecidableEq κ] (key : ρ → κ) (init : ρ → σ)
    (step : σ → ρ → σ) : List (κ × σ) → ρ → List (κ × σ)
  | [], r => [(key r, step (init r) r)]
  | (k, s) :: rest, r =>
      if key r = k then (k, step s r) :: rest
      else (k, s) :: groupStep key init step rest r

/-- Fold a whole row list through `groupStep`, starting from the empty dict. -/
def groupFold {κ σ ρ : Type} [DecidableEq κ] (key : ρ → κ) (init : ρ → σ)
    (step : σ → ρ → σ) (rows : List ρ) : List (κ × σ) :=
  rows.foldl (groupStep key init step) []

/-- Per-material accumulator of `dashboard_overview` (lines 869-883). -/
structure MatSummary where
  material_id : String
  total_attempts : Nat
  accuracies : List ℚ
  last_attempt_at : String
deriving Repr, DecidableEq

/-- Lines 870-875: the entry created for a first-seen material id. -/
def overviewInit (row : QPRow) : MatSummary :=
  { material_id := row.material_id, total_attempts := 0, accuracies := [],
    last_attempt_at := row.created_at }

/-- Lines 880-883: `if row.get("created_at") and (m["last_attempt_at"] is
None or row["created_at"] > m["last_attempt_at"])` — keep the later truthy
timestamp (`None` modelled as `""`, string comparison is lexicographic in
Python as here). -/
def updLast (l : String) (row : QPRow) : String :=
  if row.created_at ≠ "" ∧ (l = "" ∨ l < row.created_at) then row.created_at else l

/-- Lines 877-883: bump the attempt count, push the row's stored accuracy,
and keep the latest truthy timestamp. -/
def overviewStep (m : MatSummary) (row : QPRow) : MatSummary :=
  { m with
    total_attempts := m.total_attempts + 1,
    accuracies := m.accuracies ++ [row.accuracy],
    last_attempt_at := updLast m.last_attempt_at row }

/-- The `materials_summary` dict after the whole row loop. -/
def materialsSummary (rows : List QPRow) : List (String × MatSummary) :=
  groupFold (fun r => r.material_id) overviewInit overviewStep rows

/-- Lines 889-893: `sum(accuracies) / len(accuracies)` guarded on empty. -/
def overviewAvg (m : MatSummary) : ℚ :=
  if m.accuracies ≠ [] then m.accuracies.sum / m.accuracies.length else 0

/-- One element of the `materials` list of the overview response (the
display rounding `round(avg * 100, 2)` is dropped, the fraction kept). -/
structure OverviewMaterial where
  material_id : String
  total_attempts : Nat
  avg_accuracy : ℚ
  last_attempt_at : String
deriving Repr, DecidableEq

/-- The `materials` list of `dashboard_overview` (lines 885-900). -/
def dashboard_overview_materials (rows : List QPRow) : List OverviewMaterial :=
  (materialsSummary rows).map (fun p =>
    { material_id := p.2.material_id, total_attempts := p.2.total_attempts,
      avg_accuracy := overviewAvg p.2, last_attempt_at := p.2.last_attempt_at })

/-- The global `avg_accuracy` of lines 902-907: the mean of the
per-material averages (again keeping the fraction, not `round(x*100, 2)`). -/
def dashboard_overview_global_avg (rows : List QPRow) : ℚ :=
  let all_acc := (materialsSummary rows).map (fun p => overviewAvg p.2)
  if all_acc ≠ [] then all_acc.sum / all_acc.length else 0

/-- Lines 950-955 of `dashboard_material`:
`total_q = correct + wrong` (skipped not counted) and
`acc = correct / total_q if total_q > 0 else 0`. -/
def materialAccuracy (correct wrong : Nat) : ℚ :=
  if 0 < correct + wrong then (correct : ℚ) / (correct + wrong) else 0

/-- One element of the recomputed `quiz_history` of `dashboard_material`
(the display form `round(acc * 100, 2)` is dropped, the fraction kept;
the table row has no `mode` column, so `row.get("mode", "quiz")` always
yields `"quiz"`). -/
structure MatHistoryEntry where
  attempt_no : Nat
  created_at : String
  accuracy : ℚ
  correct : Nat
  wrong : Nat
  skipped : Nat
  total_questions : Nat
  mode : String
deriving Repr, DecidableEq

/-- The `history` projection of `dashboard_material` (lines 948-965). -/
def dashboard_material_history (rows : List QPRow) : List MatHistoryEntry :=
  rows.map (fun row =>
    { attempt_no := row.attempt_no, created_at := row.created_at,
      accuracy := materialAccuracy row.correct_answers row.wrong_answers,
      correct := row.correct_answers, wrong := row.wrong_answers,
      skipped := row.skipped,
      total_questions := row.correct_answers + row.wrong_answers,
      mode := "quiz" })

/-- The quantities `user_dashboard` derives from one row (lines 1033-1039):
`total_q = c + w`, `score = float(c)`, `acc = c / total_q if total_q > 0 else 0`,
and the date key `(row.get("created_at") or "")[:10]`. -/
def rowTotalQ (row : QPRow) : Nat := row.correct_answers + row.wrong_answers

/-- Per-row score of `user_dashboard`: `float(c)`. -/
def rowScore (row : QPRow) : ℚ := row.correct_answers

/-- Per-row accuracy fraction of `user_dashboard`. -/
def rowAcc (row : QPRow) : ℚ :=
  if 0 < rowTotalQ row then (row.correct_answers : ℚ) / rowTotalQ row else 0

/-- Date bucket key: the first 10 characters of the timestamp. -/
def rowDateKey (row : QPRow) : String := row.created_at.take 10

/-- The set `material_ids`: only its cardinality is used, so it is
modelled as a duplicate-free insertion list. -/
def addMaterial (ids : List String) (mid : String) : List String :=
  if mid ∈ ids then ids else ids ++ [mid]

/-- One `by_date` accumulator entry (line 1050). -/
structure DateAgg where
  attempts : Nat
  score : ℚ
  acc : ℚ
deriving Repr, DecidableEq

/-- The `by_date.setdefault(date_key, {"attempts": 0, "score": 0, "acc": 0})`
initialiser. -/
def dateInit (_row : QPRow) : DateAgg := ⟨0, 0, 0⟩

/-- Lines 1051-1053: bump the bucket's counters by the row's quantities. -/
def dateStep (d : DateAgg) (row : QPRow) : DateAgg :=
  ⟨d.attempts + 1, d.score + rowScore row, d.acc + rowAcc row⟩

/-- One element of the `attempts` list of the user dashboard (line 1055-1065;
the source reports `accuracy` as `acc * 100`). -/
structure UserAttemptOut where
  attempt_no : Nat
  material_id : String
  created_at : String
  score : ℚ
  total_questions : Nat
  accuracy : ℚ
  correct : Nat
  wrong : Nat
  skipped : Nat
deriving Repr, DecidableEq

/-- Accumulator of the row loop of `user_dashboard` (lines 1015-1065). -/
structure UDState where
  material_ids : List String
  overall_correct : Nat
  overall_total_q : Nat
  sum_scores : ℚ
  sum_accuracy_frac : ℚ
  best_score : ℚ
  best_accuracy : ℚ
  attempts_out : List UserAttemptOut
  by_date : List (String × DateAgg)
deriving Repr, DecidableEq

/-- One iteration of the row loop of `user_dashboard`. -/
def udStep (st : UDState) (row : QPRow) : UDState :=
  { material_ids := addMaterial st.material_ids row.material_id,
    overall_correct := st.overall_correct + row.correct_answers,
    overall_total_q := st.overall_total_q + rowTotalQ row,
    sum_scores := st.sum_scores + rowScore row,
    sum_accuracy_frac := st.sum_accuracy_frac + rowAcc row,
    best_score := max st.best_score (rowScore row),
    best_accuracy := max st.best_accuracy (rowAcc row),
    attempts_out := st.attempts_out ++
      [{ attempt_no := row.attempt_no, material_id := row.material_id,
         created_at := row.created_at, score := rowScore row,
         total_questions := rowTotalQ row, accuracy := 100 * rowAcc row,
         correct := row.correct_answers, wrong := row.wrong_answers,
         skipped := row.skipped }],
    by_date := groupStep rowDateKey dateInit dateStep st.by_date row }

/-- The loop accumulator after all rows, started from zeroes (lines 1015-1027). -/
def user_dashboard_state (rows : List QPRow) : UDState :=
  rows.foldl udStep ⟨[], 0, 0, 0, 0, 0, 0, [], []⟩

/-- The `summary` object of `user_dashboard` (lines 1067-1088; the final
`round(..., k)` display rounding is dropped but the `* 100` percentage
scalings of `overall_accuracy`, `avg_accuracy` and `best_accuracy` kept). -/
structure UserSummary where
  total_attempts : Nat
  distinct_materials : Nat
  overall_accuracy : ℚ
  avg_score : ℚ
  avg_accuracy : ℚ
  best_score : ℚ
  best_accuracy : ℚ
deriving Repr, DecidableEq

/-- Lines 1067-1069 and 1080-1088 of `user_dashboard`. -/
def user_dashboard_summary (rows : List QPRow) : UserSummary :=
  let st := user_dashboard_state rows
  { total_attempts := rows.length,
    distinct_materials := st.material_ids.length,
    overall_accuracy :=
      if 0 < st.overall_total_q then (st.overall_correct : ℚ) / st.overall_total_q * 100 else 0,
    avg_score := st.sum_scores / rows.length,
    avg_accuracy := if 0 < rows.length then st.sum_accuracy_frac / rows.length * 100 else 0,
    best_score := st.best_score,
    best_accuracy := st.best_accuracy * 100 }

/-- The key order used by `sorted(by_date.items())`: the date keys are
pairwise distinct, so Python's tuple comparison only ever compares keys. -/
def dateKeyLe (a b : String × DateAgg) : Prop := a.1 ≤ b.1

instance : DecidableRel dateKeyLe := fun a b => by unfold dateKeyLe; infer_instance

instance : IsTotal (String × DateAgg) dateKeyLe := ⟨fun a b => le_total a.1 b.1⟩

instance : IsTrans (String × DateAgg) dateKeyLe := ⟨fun _ _ _ => le_trans⟩

/-- One element of the emitted `by_date` list (lines 1071-1078). -/
structure DateBucketOut where
  date : String
  attempts : Nat
  avg_score : ℚ
  avg_accuracy : ℚ
deriving Repr, DecidableEq

/-- Lines 1071-1078: the date buckets sorted ascending by key and rendered
with their per-bucket means (`avg_accuracy` keeps the `* 100` scaling). -/
def user_dashboard_by_date (rows : List QPRow) : List DateBucketOut :=
  ((user_dashboard_state rows).by_date.insertionSort dateKeyLe).map (fun p =>
    { date := p.1, attempts := p.2.attempts,
      avg_score := p.2.score / p.2.attempts,
      avg_accuracy := p.2.acc / p.2.attempts * 100 })

/-! ### Outcome classification of one attempted index -/

/-- The submitted answer is absent: the index counts as skipped. -/
def outSkipped (answers : Nat → Option String) (idx : Nat) : Bool :=
  (answers idx).isNone

/-- The submitted answer is present and string-equal to the question's
stored correct answer. -/
def outCorrect (quiz : List Question) (answers : Nat → Option String) (idx : Nat) : Bool :=
  match answers idx with
  | none => false
  | some sel => decide (some sel = (quiz.getD idx default).answer)

/-- The submitted answer is present and differs from the stored answer. -/
def outWrong (quiz : List Question) (answers : Nat → Option String) (idx : Nat) : Bool :=
  match answers idx with
  | none => false
  | some sel => decide (¬ some sel = (quiz.getD idx default).answer)

/-- The per-question stats update of one loop iteration (lines 764-770):
`attempts += 1`, plus `skipped += 1` on an absent answer or `correct += 1`
on a correct one. -/
def statsUpdate (quiz : List Question) (answers : Nat → Option String) (idx : Nat)
    (s : QuestionStats) : QuestionStats :=
  match answers idx with
  | none => { s with attempts := s.attempts + 1, skipped := s.skipped + 1 }
  | some sel =>
      if some sel = (quiz.getD idx default).answer
      then { s with attempts := s.attempts + 1, correct := s.correct + 1 }
      else { s with attempts := s.attempts + 1 }

/-- The per-question component of the evaluation loop in isolation. -/
def pqApply (quiz : List Question) (answers : Nat → Option String)
    (pq : PerQuestion) (ind : List Nat) : PerQuestion :=
  ind.foldl (fun pq idx => pqInsert pq idx (statsUpdate quiz answers idx (pqGetD pq idx))) pq

/-! ### Association-list lemmas -/

theorem lookupA_pqInsert (pq : PerQuestion) (i j : Nat) (s : QuestionStats) :
    lookupA j (pqInsert pq i s) = if i = j then some s else lookupA j pq := by
  induction pq with
  | nil => by_cases hij : i = j <;> simp [pqInsert, lookupA, hij]
  | cons hd tl ih =>
      obtain ⟨k, t⟩ := hd
      by_cases hk : k = i
      · subst hk
        by_cases hij : k = j <;> simp [pqInsert, lookupA, hij]
      · by_cases hkj : k = j <;> by_cases hij : i = j <;>
          simp_all [pqInsert, lookupA, hk, hkj, hij]

theorem pqGetD_pqInsert (pq : PerQuestion) (i j : Nat) (s : QuestionStats) :
    pqGetD (pqInsert pq i s) j = if i = j then s else pqGetD pq j := by
  unfold pqGetD
  rw [lookupA_pqInsert]
  by_cases hij : i = j <;> simp [hij]

theorem lookupA_eq_none_iff {κ σ : Type} [DecidableEq κ] (k : κ) (l : List (κ × σ)) :
    lookupA k l = none ↔ k ∉ l.map Prod.fst := by
  induction l with
  | nil => simp [lookupA]
  | cons hd tl ih =>
      obtain ⟨k2, s⟩ := hd
      by_cases hk : k2 = k
      · subst hk
        simp [lookupA]
      · have hk2 : ¬ k = k2 := fun h => hk h.symm
        simp only [lookupA, if_neg hk, List.map_cons, List.mem_cons, ih]
        tauto

theorem lookupA_of_mem_nodup {κ σ : Type} [DecidableEq κ] {k : κ} {s : σ}
    {l : List (κ × σ)} (hmem : (k, s) ∈ l) (hnd : (l.map Prod.fst).Nodup) :
    lookupA k l = some s := by
  induction l with
  | nil => simp at hmem
  | cons hd tl ih =>
      obtain ⟨k2, t⟩ := hd
      simp only [List.map_cons, List.nodup_cons] at hnd
      rcases List.mem_cons.mp hmem with h | h
      · cases h
        simp [lookupA]
      · have hk2 : k2 ≠ k := by
          intro he
          subst he
          exact hnd.1 (List.mem_map.mpr ⟨(k2, s), h, rfl⟩)
        simp [lookupA, hk2, ih h hnd.2]

theorem mem_of_lookupA {κ σ : Type} [DecidableEq κ] {k : κ} {s : σ} :
    ∀ {l : List (κ × σ)}, lookupA k l = some s → (k, s) ∈ l := by
  intro l
  induction l with
  | nil => intro h; simp [lookupA] at h
  | cons hd tl ih =>
      intro h
      obtain ⟨k2, t⟩ := hd
      by_cases hk : k2 = k
      · subst hk
        simp [lookupA] at h
        subst h
        exact List.mem_cons_self _ _
      · simp only [lookupA, if_neg hk] at h
        exact List.mem_cons_of_mem _ (ih h)

/-! ### Evaluation-loop lemmas -/

theorem stepIndex_correct (quiz : List Question) (answers : Nat → Option String)
    (st : EvalState) (idx : Nat) :
    (stepIndex quiz answers st idx).correct
      = st.correct + (if outCorrect quiz answers idx then 1 else 0) := by
  unfold stepIndex outCorrect
  cases h : answers idx <;> simp [h]
  split <;> simp_all

theorem stepIndex_wrong (quiz : List Question) (answers : Nat → Option String)
    (st : EvalState) (idx : Nat) :
    (stepIndex quiz answers st idx).wrong
      = st.wrong + (if outWrong quiz answers idx then 1 else 0) := by
  unfold stepIndex outWrong
  cases h : answers idx <;> simp [h]
  split <;> simp_all

theorem stepIndex_skipped (quiz : List Question) (answers : Nat → Option String)
    (st : EvalState) (idx : Nat) :
    (stepIndex quiz answers st idx).skipped
      = st.skipped + (if outSkipped answers idx then 1 else 0) := by
  unfold stepIndex outSkipped
  cases h : answers idx <;> simp [h]
  split <;> simp_all

theorem stepIndex_per_question (quiz : List Question) (answers : Nat → Option String)
    (st : EvalState) (idx : Nat) :
    (stepIndex quiz answers st idx).per_question
      = pqInsert st.per_question idx
          (statsUpdate quiz answers idx (pqGetD st.per_question idx)) := by
  unfold stepIndex statsUpdate
  cases h : answers idx <;> simp [h]
  split <;> rfl

theorem evalLoop_counts (quiz : List Question) (answers : Nat → Option String) :
    ∀ (ind : List Nat) (st : EvalState),
      (ind.foldl (stepIndex quiz answers) st).correct
          = st.correct + ind.countP (fun i => outCorrect quiz answers i)
        ∧ (ind.foldl (stepIndex quiz answers) st).wrong
          = st.wrong + ind.countP (fun i => outWrong quiz answers i)
        ∧ (ind.foldl (stepIndex quiz answers) st).skipped
          = st.skipped + ind.countP (fun i => outSkipped answers i) := by
  intro ind
  induction ind with
  | nil => intro st; simp
  | cons i rest ih =>
      intro st
      obtain ⟨h1, h2, h3⟩ := ih (stepIndex quiz answers st i)
      refine ⟨?_, ?_, ?_⟩
      · rw [List.foldl_cons, h1, stepIndex_correct, List.countP_cons]
        by_cases hc : outCorrect quiz answers i <;> simp [hc] <;> omega
      · rw [List.foldl_cons, h2, stepIndex_wrong, List.countP_cons]
        by_cases hc : outWrong quiz answers i <;> simp [hc] <;> omega
      · rw [List.foldl_cons, h3, stepIndex_skipped, List.countP_cons]
        by_cases hc : outSkipped answers i <;> simp [hc] <;> omega

theorem evalLoop_per_question (quiz : List Question) (answers : Nat → Option String) :
    ∀ (ind : List Nat) (st : EvalState),
      (ind.foldl (stepIndex quiz answers) st).per_question
        = pqApply quiz answers st.per_question ind := by
  intro ind
  induction ind with
  | nil => intro st; simp [pqApply]
  | cons i rest ih =>
      intro st
      simp only [List.foldl_cons, pqApply, ih, stepIndex_per_question]

theorem pqApply_cons (quiz : List Question) (answers : Nat → Option String)
    (pq : PerQuestion) (i : Nat) (ind : List Nat) :
    pqApply quiz answers pq (i :: ind)
      = pqApply quiz answers
          (pqInsert pq i (statsUpdate quiz answers i (pqGetD pq i))) ind := rfl

theorem lookupA_pqApply_not_mem (quiz : List Question) (answers : Nat → Option String) :
    ∀ (ind : List Nat) (pq : PerQuestion) (j : Nat), j ∉ ind →
      lookupA j (pqApply quiz answers pq ind) = lookupA j pq := by
  intro ind
  induction ind with
  | nil => intro pq j _; rfl
  | cons i rest ih =>
      intro pq j hj
      have hji : i ≠ j := fun h => hj (h ▸ List.mem_cons_self _ _)
      have hjr : j ∉ rest := fun h => hj (List.mem_cons_of_mem _ h)
      rw [pqApply_cons, ih _ j hjr, lookupA_pqInsert, if_neg hji]

theorem pqGetD_pqApply_mem (quiz : List Question) (answers : Nat → Option String) :
    ∀ (ind : List Nat) (pq : PerQuestion) (j : Nat), ind.Nodup → j ∈ ind →
      pqGetD (pqApply quiz answers pq ind) j
        = statsUpdate quiz answers j (pqGetD pq j) := by
  intro ind
  induction ind with
  | nil => intro pq j _ hj; simp at hj
  | cons i rest ih =>
      intro pq j hnd hj
      simp only [List.nodup_cons] at hnd
      by_cases hij : j = i
      · subst hij
        have hnr : j ∉ rest := hnd.1
        rw [pqApply_cons]
        unfold pqGetD
        rw [lookupA_pqApply_not_mem quiz answers rest _ j hnr, lookupA_pqInsert,
          if_pos rfl]
        rfl
      · have hjr : j ∈ rest := by
          rcases List.mem_cons.mp hj with h | h
          · exact (hij h).elim
          · exact h
        rw [pqApply_cons, ih _ j hnd.2 hjr, pqGetD_pqInsert,
          if_neg (fun h => hij h.symm)]

theorem statsUpdate_comm (quiz : List Question) (ansA ansB : Nat → Option String)
    (i : Nat) (s : QuestionStats) :
    statsUpdate quiz ansA i (statsUpdate quiz ansB i s)
      = statsUpdate quiz ansB i (statsUpdate quiz ansA i s) := by
  unfold statsUpdate
  cases ansA i <;> cases ansB i <;> simp <;> (try split) <;> (try split) <;> rfl

theorem statsUpdate_attempts (quiz : List Question) (answers : Nat → Option String)
    (i : Nat) (s : QuestionStats) :
    (statsUpdate quiz answers i s).attempts = s.attempts + 1 := by
  unfold statsUpdate
  cases answers i with
  | none => rfl
  | some sel =>
      dsimp only
      by_cases hc : some sel = (quiz.getD i default).answer
      · rw [if_pos hc]
      · rw [if_neg hc]

theorem statsUpdate_skipped (quiz : List Question) (answers : Nat → Option String)
    (i : Nat) (s : QuestionStats) :
    (statsUpdate quiz answers i s).skipped
      = s.skipped + (if outSkipped answers i then 1 else 0) := by
  unfold statsUpdate outSkipped
  cases answers i with
  | none => simp
  | some sel =>
      dsimp only
      by_cases hc : some sel = (quiz.getD i default).answer
      · rw [if_pos hc]; simp
      · rw [if_neg hc]; simp

theorem statsUpdate_correct (quiz : List Question) (answers : Nat → Option String)
    (i : Nat) (s : QuestionStats) :
    (statsUpdate quiz answers i s).correct
      = s.correct + (if outCorrect quiz answers i then 1 else 0) := by
  unfold statsUpdate outCorrect
  cases answers i with
  | none => simp
  | some sel =>
      dsimp only
      by_cases hc : some sel = (quiz.getD i default).answer
      · rw [if_pos hc, decide_eq_true hc]
        simp
      · rw [if_neg hc, decide_eq_false hc]
        simp

theorem pqGetD_pqApply_not_mem (quiz : List Question) (answers : Nat → Option String)
    (ind : List Nat) (pq : PerQuestion) (j : Nat) (hj : j ∉ ind) :
    pqGetD (pqApply quiz answers pq ind) j = pqGetD pq j := by
  unfold pqGetD
  rw [lookupA_pqApply_not_mem quiz answers ind pq j hj]

/-! ### Success shape of quiz_performance -/

theorem quiz_performance_ok (quiz : List Question) (qs : QuizStats)
    (answers : Nat → Option String) (modeRaw : String) (raw : Option (List Int))
    (ts : String) (qs2 : QuizStats) (item : AttemptItem)
    (h : quiz_performance quiz qs answers modeRaw raw ts = Except.ok (qs2, item)) :
    attemptIndicesOf (qpModeOf modeRaw) raw quiz.length ≠ []
    ∧ qs2 = { per_question :=
                (evalAttempt quiz answers qs.per_question
                  (attemptIndicesOf (qpModeOf modeRaw) raw
                    quiz.length)).per_question,
              history := qs.history ++ [item],
              last_unsolved :=
                rebuildLastUnsolved quiz
                  (evalAttempt quiz answers qs.per_question
                    (attemptIndicesOf (qpModeOf modeRaw) raw
                      quiz.length)).per_question }
    ∧ item = { mode := qpModeOf modeRaw,
               score :=
                 ((evalAttempt quiz answers qs.per_question
                   (attemptIndicesOf (qpModeOf modeRaw) raw
                     quiz.length)).correct : ℚ),
               correct :=
                 (evalAttempt quiz answers qs.per_question
                   (attemptIndicesOf (qpModeOf modeRaw) raw
                     quiz.length)).correct,
               wrong :=
                 (evalAttempt quiz answers qs.per_question
                   (attemptIndicesOf (qpModeOf modeRaw) raw
                     quiz.length)).wrong,
               skipped :=
                 (evalAttempt quiz answers qs.per_question
                   (attemptIndicesOf (qpModeOf modeRaw) raw
                     quiz.length)).skipped,
               attempted :=
                 (evalAttempt quiz answers qs.per_question
                   (attemptIndicesOf (qpModeOf modeRaw) raw
                     quiz.length)).correct +
                 (evalAttempt quiz answers qs.per_question
                   (attemptIndicesOf (qpModeOf modeRaw) raw
                     quiz.length)).wrong,
               total_questions :=
                 (attemptIndicesOf (qpModeOf modeRaw) raw
                   quiz.length).length,
               accuracy :=
                 if 0 < (attemptIndicesOf (qpModeOf modeRaw)
                     raw quiz.length).length
                 then ((evalAttempt quiz answers qs.per_question
                     (attemptIndicesOf (qpModeOf modeRaw) raw
                       quiz.length)).correct : ℚ) /
                   (attemptIndicesOf (qpModeOf modeRaw) raw
                     quiz.length).length
                 else 0,
               attempt_no := qs.history.length + 1,
               created_at := ts } := by
  unfold quiz_performance at h
  dsimp only at h
  split at h
  · exact absurd h (by simp)
  next hne =>
    simp only [Except.ok.injEq, Prod.mk.injEq] at h
    obtain ⟨h1, h2⟩ := h
    subst h2
    exact ⟨hne, h1.symm, rfl⟩

/-! ### Outcome partition lemmas -/

theorem outcome_exactly_one (quiz : List Question) (answers : Nat → Option String)
    (i : Nat) :
    ((if outSkipped answers i then 1 else 0) + (if outCorrect quiz answers i then 1 else 0)
      + (if outWrong quiz answers i then 1 else 0) : Nat) = 1 := by
  unfold outSkipped outCorrect outWrong
  cases h : answers i with
  | none => simp
  | some sel =>
      dsimp only
      by_cases hc : some sel = (quiz.getD i default).answer
      · rw [decide_eq_true hc, decide_eq_false (not_not_intro hc)]
        simp
      · rw [decide_eq_false hc, decide_eq_true hc]
        simp

theorem counts_partition (quiz : List Question) (answers : Nat → Option String) :
    ∀ ind : List Nat,
      ind.countP (fun i => outCorrect quiz answers i)
        + ind.countP (fun i => outWrong quiz answers i)
        + ind.countP (fun i => outSkipped answers i) = ind.length := by
  intro ind
  induction ind with
  | nil => rfl
  | cons i rest ih =>
      have h1 := outcome_exactly_one quiz answers i
      simp only [List.countP_cons, List.length_cons]
      omega

theorem rebuildLastUnsolved_indices (quiz : List Question) (pq : PerQuestion) :
    (rebuildLastUnsolved quiz pq).map (fun e => e.index)
      = (List.range quiz.length).filter
          (fun idx => decide (0 < (pqGetD pq idx).attempts ∧ (pqGetD pq idx).correct = 0)) := by
  unfold rebuildLastUnsolved
  generalize List.range quiz.length = l
  induction l with
  | nil => rfl
  | cons i rest ih =>
      rw [List.filterMap_cons, List.filter_cons]
      by_cases hp : 0 < (pqGetD pq i).attempts ∧ (pqGetD pq i).correct = 0
      · rw [if_pos hp, decide_eq_true hp]
        simpa using ih
      · rw [if_neg hp, decide_eq_false hp]
        simpa using ih

/-- Field characterisation of a successful scoring run: classification
counts, their sum, score and accuracy of the produced attempt record. -/
theorem qp_item_fields (quiz : List Question) (qs : QuizStats)
    (answers : Nat → Option String) (modeRaw : String) (raw : Option (List Int))
    (ts : String) (qs2 : QuizStats) (item : AttemptItem)
    (h : quiz_performance quiz qs answers modeRaw raw ts = Except.ok (qs2, item)) :
    (∀ i : Nat,
      ((if outSkipped answers i then 1 else 0) + (if outCorrect quiz answers i then 1 else 0)
        + (if outWrong quiz answers i then 1 else 0) : Nat) = 1)
    ∧ item.correct
        = (attemptIndicesOf (qpModeOf modeRaw) raw quiz.length).countP
            (fun i => outCorrect quiz answers i)
    ∧ item.wrong
        = (attemptIndicesOf (qpModeOf modeRaw) raw quiz.length).countP
            (fun i => outWrong quiz answers i)
    ∧ item.skipped
        = (attemptIndicesOf (qpModeOf modeRaw) raw quiz.length).countP
            (fun i => outSkipped answers i)
    ∧ item.correct + item.wrong + item.skipped = item.total_questions
    ∧ item.total_questions = (attemptIndicesOf (qpModeOf modeRaw) raw quiz.length).length
    ∧ item.score = (item.correct : ℚ)
    ∧ item.accuracy = (item.correct : ℚ) / (item.total_questions : ℚ) := by
  obtain ⟨hne, hqs2, hitem⟩ := quiz_performance_ok quiz qs answers modeRaw raw ts qs2 item h
  have hlen : 0 < (attemptIndicesOf (qpModeOf modeRaw) raw quiz.length).length :=
    List.length_pos.mpr hne
  obtain ⟨hc, hw, hs⟩ :=
    evalLoop_counts quiz answers (attemptIndicesOf (qpModeOf modeRaw) raw quiz.length)
      ⟨0, 0, 0, [], qs.per_question⟩
  have hceval :
      (evalAttempt quiz answers qs.per_question
        (attemptIndicesOf (qpModeOf modeRaw) raw quiz.length)).correct
        = (attemptIndicesOf (qpModeOf modeRaw) raw quiz.length).countP
            (fun i => outCorrect quiz answers i) := by
    unfold evalAttempt
    rw [hc]
    simp
  have hweval :
      (evalAttempt quiz answers qs.per_question
        (attemptIndicesOf (qpModeOf modeRaw) raw quiz.length)).wrong
        = (attemptIndicesOf (qpModeOf modeRaw) raw quiz.length).countP
            (fun i => outWrong quiz answers i) := by
    unfold evalAttempt
    rw [hw]
    simp
  have hseval :
      (evalAttempt quiz answers qs.per_question
        (attemptIndicesOf (qpModeOf modeRaw) raw quiz.length)).skipped
        = (attemptIndicesOf (qpModeOf modeRaw) raw quiz.length).countP
            (fun i => outSkipped answers i) := by
    unfold evalAttempt
    rw [hs]
    simp
  have hpart :=
    counts_partition quiz answers (attemptIndicesOf (qpModeOf modeRaw) raw quiz.length)
  subst hitem
  dsimp only
  refine ⟨fun i => outcome_exactly_one quiz answers i, hceval, hweval, hseval, ?_, rfl, rfl, ?_⟩
  · rw [hceval, hweval, hseval]
    exact hpart
  · rw [if_pos hlen]

/-- C1: for every quiz, submission mapping and successful scoring run,
each attempted index is classified into exactly one of skipped, correct
or wrong; the three counters are the counts of those classes over the
attempted indices, they sum to `totalQuestions = len(attempt_indices)`,
`score = correct` and `accuracy = correct / totalQuestions`. -/
theorem C1_evaluate_partition (quiz : List Question) (qs : QuizStats)
    (answers : Nat → Option String) (modeRaw : String) (raw : Option (List Int))
    (ts : String) (qs2 : QuizStats) (item : AttemptItem)
    (h : quiz_performance quiz qs answers modeRaw raw ts = Except.ok (qs2, item)) :
    (∀ i : Nat,
      ((if outSkipped answers i then 1 else 0) + (if outCorrect quiz answers i then 1 else 0)
        + (if outWrong quiz answers i then 1 else 0) : Nat) = 1)
    ∧ item.correct
        = (attemptIndicesOf (qpModeOf modeRaw) raw quiz.length).countP
            (fun i => outCorrect quiz answers i)
    ∧ item.wrong
        = (attemptIndicesOf (qpModeOf modeRaw) raw quiz.length).countP
            (fun i => outWrong quiz answers i)
    ∧ item.skipped
        = (attemptIndicesOf (qpModeOf modeRaw) raw quiz.length).countP
            (fun i => outSkipped answers i)
    ∧ item.correct + item.wrong + item.skipped = item.total_questions
    ∧ item.total_questions = (attemptIndicesOf (qpModeOf modeRaw) raw quiz.length).length
    ∧ item.score = (item.correct : ℚ)
    ∧ item.accuracy = (item.correct : ℚ) / (item.total_questions : ℚ) :=
  qp_item_fields quiz qs answers modeRaw raw ts qs2 item h

/-- C2: after any successful scoring run, the rebuilt `last_unsolved`
list contains exactly the indices of the entire quiz whose cumulative
statistics satisfy `attempts > 0` and `correct == 0`, in quiz order. -/
theorem C2_last_unsolved (quiz : List Question) (qs : QuizStats)
    (answers : Nat → Option String) (modeRaw : String) (raw : Option (List Int))
    (ts : String) (qs2 : QuizStats) (item : AttemptItem)
    (h : quiz_performance quiz qs answers modeRaw raw ts = Except.ok (qs2, item)) :
    qs2.last_unsolved.map (fun e => e.index)
      = (List.range quiz.length).filter
          (fun idx => decide (0 < (pqGetD qs2.per_question idx).attempts
            ∧ (pqGetD qs2.per_question idx).correct = 0)) := by
  obtain ⟨hne, hqs2, hitem⟩ := quiz_performance_ok quiz qs answers modeRaw raw ts qs2 item h
  subst hqs2
  dsimp only
  exact rebuildLastUnsolved_indices quiz _

theorem evalAttempt_per_question (quiz : List Question) (answers : Nat → Option String)
    (pq : PerQuestion) (ind : List Nat) :
    (evalAttempt quiz answers pq ind).per_question = pqApply quiz answers pq ind := by
  unfold evalAttempt
  exact evalLoop_per_question quiz answers ind ⟨0, 0, 0, [], pq⟩

theorem pqApply_commute (quiz : List Question) (ansA ansB : Nat → Option String)
    (indA indB : List Nat) (pq : PerQuestion) (hA : indA.Nodup) (hB : indB.Nodup)
    (j : Nat) :
    pqGetD (pqApply quiz ansB (pqApply quiz ansA pq indA) indB) j
      = pqGetD (pqApply quiz ansA (pqApply quiz ansB pq indB) indA) j := by
  by_cases hjA : j ∈ indA <;> by_cases hjB : j ∈ indB
  · rw [pqGetD_pqApply_mem quiz ansB indB _ j hB hjB,
      pqGetD_pqApply_mem quiz ansA indA _ j hA hjA,
      pqGetD_pqApply_mem quiz ansA indA _ j hA hjA,
      pqGetD_pqApply_mem quiz ansB indB _ j hB hjB,
      statsUpdate_comm]
  · rw [pqGetD_pqApply_not_mem quiz ansB indB _ j hjB,
      pqGetD_pqApply_mem quiz ansA indA _ j hA hjA,
      pqGetD_pqApply_mem quiz ansA indA _ j hA hjA,
      pqGetD_pqApply_not_mem quiz ansB indB _ j hjB]
  · rw [pqGetD_pqApply_mem quiz ansB indB _ j hB hjB,
      pqGetD_pqApply_not_mem quiz ansA indA _ j hjA,
      pqGetD_pqApply_not_mem quiz ansA indA _ j hjA,
      pqGetD_pqApply_mem quiz ansB indB _ j hB hjB]
  · rw [pqGetD_pqApply_not_mem quiz ansB indB _ j hjB,
      pqGetD_pqApply_not_mem quiz ansA indA _ j hjA,
      pqGetD_pqApply_not_mem quiz ansA indA _ j hjA,
      pqGetD_pqApply_not_mem quiz ansB indB _ j hjB]

/-- C4: folding an attempt into the per-question statistics bumps
`attempts` by one on each attempted index, bumps `skipped` exactly when
the answer was absent and `correct` exactly when it was correct (a wrong
answer bumps only `attempts`); the fold never decreases any counter at
any index, and folding two attempts in either order yields the same
cumulative statistics at every index. -/
theorem C4_fold_monotone_commutative (quiz : List Question)
    (ansA ansB : Nat → Option String) (indA indB : List Nat) (pq : PerQuestion)
    (i : Nat) (hA : indA.Nodup) (hB : indB.Nodup) (hiA : i ∈ indA) :
    ((pqGetD (evalAttempt quiz ansA pq indA).per_question i).attempts
        = (pqGetD pq i).attempts + 1)
    ∧ ((pqGetD (evalAttempt quiz ansA pq indA).per_question i).skipped
        = (pqGetD pq i).skipped + (if outSkipped ansA i then 1 else 0))
    ∧ ((pqGetD (evalAttempt quiz ansA pq indA).per_question i).correct
        = (pqGetD pq i).correct + (if outCorrect quiz ansA i then 1 else 0))
    ∧ (∀ j : Nat,
        (pqGetD pq j).attempts ≤ (pqGetD (evalAttempt quiz ansA pq indA).per_question j).attempts
        ∧ (pqGetD pq j).correct ≤ (pqGetD (evalAttempt quiz ansA pq indA).per_question j).correct
        ∧ (pqGetD pq j).skipped ≤ (pqGetD (evalAttempt quiz ansA pq indA).per_question j).skipped)
    ∧ (∀ j : Nat,
        pqGetD (evalAttempt quiz ansB (evalAttempt quiz ansA pq indA).per_question indB).per_question j
          = pqGetD (evalAttempt quiz ansA (evalAttempt quiz ansB pq indB).per_question indA).per_question j) := by
  have hmem := pqGetD_pqApply_mem quiz ansA indA pq i hA hiA
  refine ⟨?_, ?_, ?_, ?_, ?_⟩
  · rw [evalAttempt_per_question, hmem, statsUpdate_attempts]
  · rw [evalAttempt_per_question, hmem, statsUpdate_skipped]
  · rw [evalAttempt_per_question, hmem, statsUpdate_correct]
  · intro j
    rw [evalAttempt_per_question]
    by_cases hj : j ∈ indA
    · rw [pqGetD_pqApply_mem quiz ansA indA pq j hA hj, statsUpdate_attempts,
        statsUpdate_correct, statsUpdate_skipped]
      refine ⟨Nat.le_succ _, Nat.le_add_right _ _, Nat.le_add_right _ _⟩
    · rw [pqGetD_pqApply_not_mem quiz ansA indA pq j hj]
      exact ⟨le_refl _, le_refl _, le_refl _⟩
  · intro j
    rw [evalAttempt_per_question, evalAttempt_per_question, evalAttempt_per_question,
      evalAttempt_per_question]
    exact pqApply_commute quiz ansA ansB indA indB pq hA hB j

/-- C10: a scoring run leaves the per-question statistics of every index
outside the attempted index set untouched (even the presence or absence
of its entry is preserved), and the database write of `quiz_performance`
updates only the `quiz_stats` column, never the quiz itself. -/
theorem C10_frame (quiz : List Question) (qs : QuizStats)
    (answers : Nat → Option String) (modeRaw : String) (raw : Option (List Int))
    (ts : String) (qs2 : QuizStats) (item : AttemptItem)
    (h : quiz_performance quiz qs answers modeRaw raw ts = Except.ok (qs2, item)) :
    (∀ j : Nat, j ∉ attemptIndicesOf (qpModeOf modeRaw) raw quiz.length →
      lookupA j qs2.per_question = lookupA j qs.per_question)
    ∧ ∀ m : Material, (updateMaterialStats m qs2).quiz = m.quiz := by
  obtain ⟨hne, hqs2, hitem⟩ := quiz_performance_ok quiz qs answers modeRaw raw ts qs2 item h
  subst hqs2
  refine ⟨?_, fun m => rfl⟩
  intro j hj
  dsimp only
  rw [evalAttempt_per_question]
  exact lookupA_pqApply_not_mem quiz answers _ qs.per_question j hj

/-! ### Deduplication lemmas for the revision index filter -/

theorem pyDedup_sublist : ∀ (seen l : List Nat), (pyDedup seen l).Sublist l := by
  intro seen l
  induction l generalizing seen with
  | nil => simp [pyDedup]
  | cons x xs ih =>
      unfold pyDedup
      by_cases hx : x ∈ seen
      · rw [if_pos hx]
        exact (ih seen).trans (List.sublist_cons_self x xs)
      · rw [if_neg hx]
        exact (ih (x :: seen)).cons₂ x

theorem mem_pyDedup : ∀ (seen l : List Nat) (x : Nat),
    x ∈ pyDedup seen l ↔ x ∈ l ∧ x ∉ seen := by
  intro seen l
  induction l generalizing seen with
  | nil => intro x; simp [pyDedup]
  | cons y ys ih =>
      intro x
      unfold pyDedup
      by_cases hy : y ∈ seen
      · rw [if_pos hy, ih seen x]
        constructor
        · rintro ⟨hxl, hxs⟩
          exact ⟨List.mem_cons_of_mem _ hxl, hxs⟩
        · rintro ⟨hxl, hxs⟩
          rcases List.mem_cons.mp hxl with rfl | hxl
          · exact (hxs hy).elim
          · exact ⟨hxl, hxs⟩
      · rw [if_neg hy, List.mem_cons, ih (y :: seen) x]
        constructor
        · rintro (rfl | ⟨hxl, hxs⟩)
          · exact ⟨List.mem_cons_self _ _, hy⟩
          · exact ⟨List.mem_cons_of_mem _ hxl, fun hc => hxs (List.mem_cons_of_mem _ hc)⟩
        · rintro ⟨hxl, hxs⟩
          rcases List.mem_cons.mp hxl with rfl | hxl
          · exact Or.inl rfl
          · by_cases hxy : x = y
            · exact Or.inl hxy
            · refine Or.inr ⟨hxl, fun hc => ?_⟩
              rcases List.mem_cons.mp hc with h1 | h1
              · exact hxy h1
              · exact hxs h1

theorem pyDedup_nodup : ∀ (seen l : List Nat), (pyDedup seen l).Nodup := by
  intro seen l
  induction l generalizing seen with
  | nil => simp [pyDedup]
  | cons y ys ih =>
      unfold pyDedup
      by_cases hy : y ∈ seen
      · rw [if_pos hy]
        exact ih seen
      · rw [if_neg hy]
        refine List.nodup_cons.mpr ⟨fun hc => ?_, ih (y :: seen)⟩
        exact ((mem_pyDedup (y :: seen) ys y).mp hc).2 (List.mem_cons_self y seen)

theorem inRangeIndex_eq_some (n : Nat) (r : Int) (x : Nat) :
    inRangeIndex n r = some x ↔ (0 ≤ r ∧ r < (n : Int)) ∧ r.toNat = x := by
  unfold inRangeIndex
  split
  next hin => simp [hin]
  next hout => simp [hout]

/-- C7: in revision mode the submitted index list is filtered to the
quiz range and deduplicated keeping first occurrences; an absent or
empty `question_indices` falls back to scoring the whole quiz; and the
endpoint reports the invalid-attempt error exactly when the index set is
empty after filtering. -/
theorem C7_revision_indices (quiz : List Question) (qs : QuizStats)
    (answers : Nat → Option String) (modeRaw : String) (raw : Option (List Int))
    (ts : String) (rs : List Int) (hrs : rs ≠ []) :
    (attemptIndicesOf "revision" (some rs) quiz.length
        = pyDedup [] (rs.filterMap (inRangeIndex quiz.length)))
    ∧ (attemptIndicesOf "revision" (some rs) quiz.length).Nodup
    ∧ (attemptIndicesOf "revision" (some rs) quiz.length).Sublist
        (rs.filterMap (inRangeIndex quiz.length))
    ∧ (∀ x : Nat, x ∈ attemptIndicesOf "revision" (some rs) quiz.length
        ↔ x ∈ rs.filterMap (inRangeIndex quiz.length))
    ∧ (∀ x : Nat, x ∈ rs.filterMap (inRangeIndex quiz.length)
        ↔ ∃ r ∈ rs, (0 ≤ r ∧ r < (quiz.length : Int)) ∧ r.toNat = x)
    ∧ attemptIndicesOf "revision" none quiz.length = List.range quiz.length
    ∧ attemptIndicesOf "revision" (some ([] : List Int)) quiz.length = List.range quiz.length
    ∧ ((∃ e, quiz_performance quiz qs answers modeRaw raw ts = Except.error e)
        ↔ attemptIndicesOf (qpModeOf modeRaw) raw quiz.length = []) := by
  have hdef : attemptIndicesOf "revision" (some rs) quiz.length
      = pyDedup [] (rs.filterMap (inRangeIndex quiz.length)) := by
    unfold attemptIndicesOf
    dsimp only
    rw [if_pos (⟨rfl, hrs⟩ : "revision" = "revision" ∧ rs ≠ [])]
  refine ⟨hdef, ?_, ?_, ?_, ?_, rfl, ?_, ?_⟩
  · rw [hdef]
    exact pyDedup_nodup [] _
  · rw [hdef]
    exact pyDedup_sublist [] _
  · intro x
    rw [hdef, mem_pyDedup]
    simp
  · intro x
    simp only [List.mem_filterMap, inRangeIndex_eq_some]
  · unfold attemptIndicesOf
    dsimp only
    rw [if_neg (fun hc => hc.2 rfl : ¬("revision" = "revision" ∧ ([] : List Int) ≠ []))]
  · constructor
    · rintro ⟨e, he⟩
      unfold quiz_performance at he
      dsimp only at he
      split at he
      · assumption
      · exact absurd he (by simp)
    · intro hai
      refine ⟨"No valid question indices", ?_⟩
      unfold quiz_performance
      dsimp only
      rw [if_pos hai]

/-- C9: a successful scoring run appends exactly one record to the
attempt history, numbered `len(history) + 1`, leaving every prior entry
in place unchanged; if the existing history was sequentially numbered,
the whole history stays 1-based and strictly sequential. -/
theorem C9_history_append (quiz : List Question) (qs : QuizStats)
    (answers : Nat → Option String) (modeRaw : String) (raw : Option (List Int))
    (ts : String) (qs2 : QuizStats) (item : AttemptItem)
    (h : quiz_performance quiz qs answers modeRaw raw ts = Except.ok (qs2, item))
    (hseq : ∀ k, k < qs.history.length → (qs.history.getD k default).attempt_no = k + 1) :
    qs2.history = qs.history ++ [item]
    ∧ item.attempt_no = qs.history.length + 1
    ∧ (∀ k, k < qs.history.length → qs2.history.getD k default = qs.history.getD k default)
    ∧ (∀ k, k < qs2.history.length → (qs2.history.getD k default).attempt_no = k + 1) := by
  obtain ⟨hne, hqs2, hitem⟩ := quiz_performance_ok quiz qs answers modeRaw raw ts qs2 item h
  have hno : item.attempt_no = qs.history.length + 1 := by
    rw [hitem]
  have hhist : qs2.history = qs.history ++ [item] := by
    rw [hqs2]
  refine ⟨hhist, hno, ?_, ?_⟩
  · intro k hk
    rw [hhist, List.getD_append _ _ _ _ hk]
  · intro k hk
    rw [hhist] at hk
    rw [List.length_append, List.length_singleton] at hk
    by_cases hlt : k < qs.history.length
    · rw [hhist, List.getD_append _ _ _ _ hlt]
      exact hseq k hlt
    · have hk2 : k = qs.history.length := by omega
      subst hk2
      rw [hhist, List.getD_append_right _ _ _ _ (le_refl _), Nat.sub_self]
      simpa using hno

/-! ### Revision-selection lemmas -/

theorem revisionScan_sublist_keys (n : Nat) :
    ∀ pq : PerQuestion, (revisionScan n pq).Sublist (pq.map Prod.fst) := by
  intro pq
  induction pq with
  | nil => simp [revisionScan]
  | cons hd tl ih =>
      obtain ⟨idx, stats⟩ := hd
      unfold revisionScan
      by_cases hp : needs_revision stats ∧ idx < n
      · rw [if_pos hp]
        exact ih.cons₂ idx
      · rw [if_neg hp]
        exact ih.trans (List.sublist_cons_self idx _)

theorem mem_revisionScan (n : Nat) :
    ∀ (pq : PerQuestion) (i : Nat), i ∈ revisionScan n pq →
      ∃ s, (i, s) ∈ pq ∧ needs_revision s ∧ i < n := by
  intro pq
  induction pq with
  | nil => intro i hi; simp [revisionScan] at hi
  | cons hd tl ih =>
      intro i hi
      obtain ⟨idx, stats⟩ := hd
      unfold revisionScan at hi
      by_cases hp : needs_revision stats ∧ idx < n
      · rw [if_pos hp] at hi
        rcases List.mem_cons.mp hi with rfl | hi
        · exact ⟨stats, List.mem_cons_self _ _, hp.1, hp.2⟩
        · obtain ⟨s, hs, h1, h2⟩ := ih i hi
          exact ⟨s, List.mem_cons_of_mem _ hs, h1, h2⟩
      · rw [if_neg hp] at hi
        obtain ⟨s, hs, h1, h2⟩ := ih i hi
        exact ⟨s, List.mem_cons_of_mem _ hs, h1, h2⟩

theorem revisionScan_nil_of_none (n : Nat) :
    ∀ pq : PerQuestion, (∀ p ∈ pq, ¬ needs_revision p.2) → revisionScan n pq = [] := by
  intro pq
  induction pq with
  | nil => intro _; rfl
  | cons hd tl ih =>
      intro hnone
      obtain ⟨idx, stats⟩ := hd
      unfold revisionScan
      rw [if_neg (fun hc => hnone (idx, stats) (List.mem_cons_self _ _) hc.1)]
      exact ih (fun p hp => hnone p (List.mem_cons_of_mem _ hp))

/-- C3 (amended): `revision_quiz` returns at most `limit` indices, drawn
from the stats mapping in the mapping's own iteration order (hence
ascending only when the mapping is stored in ascending key order), each
in quiz range and satisfying the qualification predicate; it returns the
empty sequence when no question qualifies. -/
theorem C3_revision_select (quiz : List Question) (pq : PerQuestion) (limit : Nat)
    (hk : (pq.map Prod.fst).Nodup) :
    (revision_quiz quiz pq limit).length ≤ limit
    ∧ (revision_quiz quiz pq limit).Sublist (pq.map Prod.fst)
    ∧ (∀ i ∈ revision_quiz quiz pq limit,
        i < quiz.length ∧ needs_revision (pqGetD pq i))
    ∧ ((∀ p ∈ pq, ¬ needs_revision p.2) → revision_quiz quiz pq limit = [])
    ∧ ((pq.map Prod.fst).Pairwise (· < ·) →
        (revision_quiz quiz pq limit).Pairwise (· < ·)) := by
  have hsub : (revision_quiz quiz pq limit).Sublist (pq.map Prod.fst) :=
    (List.take_sublist _ _).trans (revisionScan_sublist_keys quiz.length pq)
  refine ⟨?_, hsub, ?_, ?_, ?_⟩
  · unfold revision_quiz
    exact List.length_take_le _ _
  · intro i hi
    have hscan : i ∈ revisionScan quiz.length pq :=
      List.take_subset _ _ hi
    obtain ⟨s, hs, h1, h2⟩ := mem_revisionScan quiz.length pq i hscan
    have : pqGetD pq i = s := by
      unfold pqGetD
      rw [lookupA_of_mem_nodup hs hk]
      rfl
    exact ⟨h2, this ▸ h1⟩
  · intro hnone
    unfold revision_quiz
    rw [revisionScan_nil_of_none quiz.length pq hnone]
    simp
  · intro hasc
    exact hasc.sublist hsub

/-- A question with one attempt and no correct answer, qualifying for
revision through the first clause of the predicate. -/
def cexStats : QuestionStats := { correct := 0, skipped := 0, attempts := 1 }

/-- A two-question quiz whose correct answers are both `"A"`. -/
def cexQuizTwo : List Question :=
  [{ question := "q0", options := ["A", "B"], answer := some "A" },
   { question := "q1", options := ["A", "B"], answer := some "A" }]

/-- A per-question mapping stored with key 1 before key 0, as a revision
attempt on indices `[1, 0]` against a fresh quiz produces. -/
def cexPerQuestion : PerQuestion := [(1, cexStats), (0, cexStats)]

/-- C3 counterexample: on a stats mapping stored in the order 1, 0 the
selection returns `[1, 0]`, which is not in ascending index order. -/
theorem C3_counterexample :
    revision_quiz cexQuizTwo cexPerQuestion 10 = [1, 0]
    ∧ ¬ (revision_quiz cexQuizTwo cexPerQuestion 10).Pairwise (· < ·)
    ∧ ¬ (revision_quiz cexQuizTwo cexPerQuestion 10).Sorted (· ≤ ·) := by
  refine ⟨by decide, ?_, ?_⟩
  · intro hp
    have h1 := (List.pairwise_cons.mp ((by decide : revision_quiz cexQuizTwo cexPerQuestion 10
        = [1, 0]) ▸ hp)).1 0 (List.mem_cons_self _ _)
    omega
  · intro hp
    have h1 := (List.pairwise_cons.mp ((by decide : revision_quiz cexQuizTwo cexPerQuestion 10
        = [1, 0]) ▸ hp)).1 0 (List.mem_cons_self _ _)
    omega

/-! ### Recorded accuracy of an attempt -/

/-- Extract the attempt record of a successful scoring run. -/
def qpItemOf (r : Except String (QuizStats × AttemptItem)) : AttemptItem :=
  match r with
  | Except.ok p => p.2
  | Except.error _ => default

/-- Submission answering question 0 with `"A"` and skipping the rest. -/
def cexAnswersSkip : Nat → Option String :=
  fun i => if i = 0 then some "A" else none

/-- A fresh `quiz_stats` blob with no statistics and no history. -/
def cexEmptyStats : QuizStats := ⟨[], [], []⟩

/-- C5 counterexample: scoring `cexQuizTwo` with one correct answer and
one skipped question records accuracy 1/2 (= correct / totalQuestions),
while correct / (correct + wrong) is 1. -/
theorem C5_counterexample :
    (qpItemOf (quiz_performance cexQuizTwo cexEmptyStats cexAnswersSkip "" none "t")).accuracy
      = 1 / 2
    ∧ ((qpItemOf (quiz_performance cexQuizTwo cexEmptyStats cexAnswersSkip "" none "t")).correct : ℚ)
        / (((qpItemOf (quiz_performance cexQuizTwo cexEmptyStats cexAnswersSkip "" none "t")).correct : ℚ)
          + ((qpItemOf (quiz_performance cexQuizTwo cexEmptyStats cexAnswersSkip "" none "t")).wrong : ℚ))
        = 1
    ∧ (1 / 2 : ℚ) ≠ 1 := by
  cases hqp : quiz_performance cexQuizTwo cexEmptyStats cexAnswersSkip "" none "t" with
  | error e =>
      unfold quiz_performance at hqp
      dsimp only at hqp
      rw [if_neg (by decide :
        ¬ attemptIndicesOf (qpModeOf "") none cexQuizTwo.length = [])] at hqp
      exact absurd hqp (by simp)
  | ok p =>
      obtain ⟨hne, hqs2, hitem⟩ := quiz_performance_ok cexQuizTwo cexEmptyStats cexAnswersSkip
        "" none "t" p.1 p.2 (by rw [hqp])
      have hcval : (evalAttempt cexQuizTwo cexAnswersSkip cexEmptyStats.per_question
          (attemptIndicesOf (qpModeOf "") none cexQuizTwo.length)).correct = 1 := by decide
      have hwval : (evalAttempt cexQuizTwo cexAnswersSkip cexEmptyStats.per_question
          (attemptIndicesOf (qpModeOf "") none cexQuizTwo.length)).wrong = 0 := by decide
      have hlval : (attemptIndicesOf (qpModeOf "") none cexQuizTwo.length).length = 2 := by
        decide
      show (p.2.accuracy = 1 / 2)
        ∧ ((p.2.correct : ℚ) / ((p.2.correct : ℚ) + (p.2.wrong : ℚ)) = 1)
        ∧ (1 / 2 : ℚ) ≠ 1
      rw [hitem]
      dsimp only
      rw [hcval, hwval, hlval]
      norm_num

/-- C5 (amended): the accuracy stored in the attempt record is
`correct / totalQuestions`, whose denominator `totalQuestions =
correct + wrong + skipped` includes the skipped questions; the
skipped-excluded ratio `correct / (correct + wrong)` is the accuracy the
per-material dashboard recomputes for its history, not the recorded one. -/
theorem C5_recorded_accuracy (quiz : List Question) (qs : QuizStats)
    (answers : Nat → Option String) (modeRaw : String) (raw : Option (List Int))
    (ts : String) (qs2 : QuizStats) (item : AttemptItem)
    (h : quiz_performance quiz qs answers modeRaw raw ts = Except.ok (qs2, item)) :
    item.accuracy = (item.correct : ℚ) / (item.total_questions : ℚ)
    ∧ item.total_questions = item.correct + item.wrong + item.skipped
    ∧ (∀ rows : List QPRow, ∀ e ∈ dashboard_material_history rows,
        e.accuracy
          = if 0 < e.correct + e.wrong
            then (e.correct : ℚ) / ((e.correct : ℚ) + (e.wrong : ℚ)) else 0) := by
  obtain ⟨h1, h2, h3, h4, h5, h6, h7, h8⟩ :=
    qp_item_fields quiz qs answers modeRaw raw ts qs2 item h
  refine ⟨h8, by omega, ?_⟩
  intro rows e he
  obtain ⟨row, _hrow, hre⟩ := List.mem_map.mp he
  subst hre
  show materialAccuracy row.correct_answers row.wrong_answers
    = if 0 < row.correct_answers + row.wrong_answers
      then (row.correct_answers : ℚ) / ((row.correct_answers : ℚ) + (row.wrong_answers : ℚ))
      else 0
  unfold materialAccuracy
  by_cases hd : 0 < row.correct_answers + row.wrong_answers
  · rfl
  · rfl

/-! ### Characterisation of dict-grouping folds -/

theorem lookupA_groupStep {κ σ ρ : Type} [DecidableEq κ] (key : ρ → κ) (init : ρ → σ)
    (step : σ → ρ → σ) (acc : List (κ × σ)) (r : ρ) (k : κ) :
    lookupA k (groupStep key init step acc r)
      = if key r = k
        then some (step ((lookupA k acc).getD (init r)) r)
        else lookupA k acc := by
  induction acc with
  | nil =>
      by_cases hk : key r = k <;> simp [groupStep, lookupA, hk]
  | cons hd tl ih =>
      obtain ⟨k2, s2⟩ := hd
      by_cases hr2 : key r = k2
      · simp only [groupStep, if_pos hr2]
        by_cases hk2 : k2 = k
        · subst hk2
          simp [lookupA, hr2]
        · have hrk : key r ≠ k := fun hc => hk2 (hr2.symm.trans hc)
          simp [lookupA, hk2, hrk]
      · simp only [groupStep, if_neg hr2]
        by_cases hk2 : k2 = k
        · subst hk2
          simp [lookupA, hr2]
        · simp [lookupA, hk2, ih]

theorem lookupA_foldl_group_some {κ σ ρ : Type} [DecidableEq κ] (key : ρ → κ)
    (init : ρ → σ) (step : σ → ρ → σ) :
    ∀ (rows : List ρ) (acc : List (κ × σ)) (k : κ) (s : σ), lookupA k acc = some s →
      lookupA k (rows.foldl (groupStep key init step) acc)
        = some ((rows.filter (fun r => key r = k)).foldl step s) := by
  intro rows
  induction rows with
  | nil => intro acc k s hs; simpa using hs
  | cons r rest ih =>
      intro acc k s hs
      rw [List.foldl_cons, List.filter_cons]
      by_cases hr : key r = k
      · have hacc2 : lookupA k (groupStep key init step acc r) = some (step s r) := by
          rw [lookupA_groupStep, if_pos hr, hs]
          rfl
        rw [ih _ k (step s r) hacc2]
        simp [hr]
      · have hacc2 : lookupA k (groupStep key init step acc r) = some s := by
          rw [lookupA_groupStep, if_neg hr, hs]
        rw [ih _ k s hacc2]
        simp [hr]

theorem lookupA_foldl_group_none {κ σ ρ : Type} [DecidableEq κ] (key : ρ → κ)
    (init : ρ → σ) (step : σ → ρ → σ) :
    ∀ (rows : List ρ) (acc : List (κ × σ)) (k : κ), lookupA k acc = none →
      lookupA k (rows.foldl (groupStep key init step) acc)
        = match rows.filter (fun r => key r = k) with
          | [] => none
          | r :: g => some (g.foldl step (step (init r) r)) := by
  intro rows
  induction rows with
  | nil => intro acc k hs; simpa using hs
  | cons r rest ih =>
      intro acc k hs
      rw [List.foldl_cons, List.filter_cons]
      by_cases hr : key r = k
      · have hacc2 : lookupA k (groupStep key init step acc r)
            = some (step (init r) r) := by
          rw [lookupA_groupStep, if_pos hr, hs]
          rfl
        rw [lookupA_foldl_group_some key init step rest _ k _ hacc2]
        simp [hr]
      · have hacc2 : lookupA k (groupStep key init step acc r) = none := by
          rw [lookupA_groupStep, if_neg hr, hs]
        rw [ih _ k hacc2]
        simp [hr]

theorem lookupA_groupFold {κ σ ρ : Type} [DecidableEq κ] (key : ρ → κ) (init : ρ → σ)
    (step : σ → ρ → σ) (rows : List ρ) (k : κ) :
    lookupA k (groupFold key init step rows)
      = match rows.filter (fun r => key r = k) with
        | [] => none
        | r :: g => some (g.foldl step (step (init r) r)) :=
  lookupA_foldl_group_none key init step rows [] k rfl

theorem groupStep_keys {κ σ ρ : Type} [DecidableEq κ] (key : ρ → κ) (init : ρ → σ)
    (step : σ → ρ → σ) (acc : List (κ × σ)) (r : ρ) :
    (groupStep key init step acc r).map Prod.fst
      = if key r ∈ acc.map Prod.fst then acc.map Prod.fst
        else acc.map Prod.fst ++ [key r] := by
  induction acc with
  | nil => simp [groupStep]
  | cons hd tl ih =>
      obtain ⟨k2, s2⟩ := hd
      by_cases hr : key r = k2
      · simp [groupStep, hr]
      · simp only [groupStep, if_neg hr, List.map_cons, ih]
        by_cases hm : key r ∈ tl.map Prod.fst
        · simp [hm, hr]
        · have hrk : k2 ≠ key r := fun hc => hr hc.symm
          simp [hm, hr, hrk]

theorem foldl_group_keys_nodup {κ σ ρ : Type} [DecidableEq κ] (key : ρ → κ)
    (init : ρ → σ) (step : σ → ρ → σ) :
    ∀ (rows : List ρ) (acc : List (κ × σ)), (acc.map Prod.fst).Nodup →
      ((rows.foldl (groupStep key init step) acc).map Prod.fst).Nodup := by
  intro rows
  induction rows with
  | nil => intro acc h; exact h
  | cons r rest ih =>
      intro acc h
      rw [List.foldl_cons]
      apply ih
      rw [groupStep_keys]
      by_cases hm : key r ∈ acc.map Prod.fst
      · rw [if_pos hm]
        exact h
      · rw [if_neg hm]
        simp [List.nodup_append, h, hm]

theorem groupFold_keys_nodup {κ σ ρ : Type} [DecidableEq κ] (key : ρ → κ)
    (init : ρ → σ) (step : σ → ρ → σ) (rows : List ρ) :
    ((groupFold key init step rows).map Prod.fst).Nodup :=
  foldl_group_keys_nodup key init step rows [] (by simp)

theorem groupFold_entry_spec {κ σ ρ : Type} [DecidableEq κ] {key : ρ → κ}
    {init : ρ → σ} {step : σ → ρ → σ} {rows : List ρ} {k : κ} {s : σ}
    (hmem : (k, s) ∈ groupFold key init step rows) :
    ∃ r g, rows.filter (fun r => key r = k) = r :: g
      ∧ s = g.foldl step (step (init r) r) := by
  have hl := lookupA_of_mem_nodup hmem (groupFold_keys_nodup key init step rows)
  rw [lookupA_groupFold] at hl
  cases hfil : rows.filter (fun r => key r = k) with
  | nil => rw [hfil] at hl; simp at hl
  | cons a g =>
      rw [hfil] at hl
      simp only [Option.some.injEq] at hl
      exact ⟨a, g, rfl, hl.symm⟩

theorem groupFold_key_of_mem {κ σ ρ : Type} [DecidableEq κ] (key : ρ → κ)
    (init : ρ → σ) (step : σ → ρ → σ) (rows : List ρ) (r : ρ) (hr : r ∈ rows) :
    ∃ s, (key r, s) ∈ groupFold key init step rows := by
  cases hl : lookupA (key r) (groupFold key init step rows) with
  | some s => exact ⟨s, mem_of_lookupA hl⟩
  | none =>
      exfalso
      rw [lookupA_groupFold] at hl
      have hrf : r ∈ rows.filter (fun r2 => key r2 = key r) :=
        List.mem_filter.mpr ⟨hr, by simp⟩
      cases hfil : rows.filter (fun r2 => key r2 = key r) with
      | nil => rw [hfil] at hrf; simp at hrf
      | cons a g => rw [hfil] at hl; simp at hl

/-! ### Per-material overview aggregation -/

theorem empty_le_string (s : String) : "" ≤ s := by
  rw [String.le_iff_toList_le]
  exact List.nil_le

theorem overview_foldl_fields :
    ∀ (g : List QPRow) (m0 : MatSummary),
      (g.foldl overviewStep m0).material_id = m0.material_id
      ∧ (g.foldl overviewStep m0).total_attempts = m0.total_attempts + g.length
      ∧ (g.foldl overviewStep m0).accuracies
          = m0.accuracies ++ g.map (fun r => r.accuracy)
      ∧ (g.foldl overviewStep m0).last_attempt_at
          = g.foldl updLast m0.last_attempt_at := by
  intro g
  induction g with
  | nil => intro m0; simp
  | cons r rest ih =>
      intro m0
      obtain ⟨h1, h2, h3, h4⟩ := ih (overviewStep m0 r)
      refine ⟨?_, ?_, ?_, ?_⟩
      · rw [List.foldl_cons, h1]
        rfl
      · rw [List.foldl_cons, h2]
        show (m0.total_attempts + 1) + rest.length = m0.total_attempts + (r :: rest).length
        simp
        omega
      · rw [List.foldl_cons, h3]
        show (m0.accuracies ++ [r.accuracy]) ++ rest.map (fun r => r.accuracy)
          = m0.accuracies ++ (r :: rest).map (fun r => r.accuracy)
        simp
      · rw [List.foldl_cons, h4]
        rfl

theorem updLast_le (l : String) (r : QPRow) : l ≤ updLast l r := by
  unfold updLast
  split
  next hcond =>
    rcases hcond.2 with hl | hl
    · rw [hl]
      exact empty_le_string _
    · exact le_of_lt hl
  next => exact le_refl _

theorem foldl_updLast_le : ∀ (g : List QPRow) (l : String), l ≤ g.foldl updLast l := by
  intro g
  induction g with
  | nil => intro l; exact le_refl l
  | cons r rest ih =>
      intro l
      exact (updLast_le l r).trans (ih (updLast l r))

theorem foldl_updLast_mem : ∀ (g : List QPRow) (l : String),
    g.foldl updLast l = l ∨ g.foldl updLast l ∈ g.map (fun r => r.created_at) := by
  intro g
  induction g with
  | nil => intro l; exact Or.inl rfl
  | cons r rest ih =>
      intro l
      rcases ih (updLast l r) with h | h
      · rw [List.foldl_cons, h]
        unfold updLast
        split
        · exact Or.inr (by simp)
        · exact Or.inl rfl
      · refine Or.inr ?_
        rw [List.foldl_cons, List.map_cons]
        exact List.mem_cons_of_mem _ h

theorem foldl_updLast_ge : ∀ (g : List QPRow) (l : String),
    (∀ r ∈ g, r.created_at ≠ "") →
    ∀ c ∈ g.map (fun r => r.created_at), c ≤ g.foldl updLast l := by
  intro g
  induction g with
  | nil => intro l _ c hc; simp at hc
  | cons r rest ih =>
      intro l hne c hc
      rw [List.map_cons, List.mem_cons] at hc
      rw [List.foldl_cons]
      rcases hc with rfl | hc
      · have h1 : r.created_at ≤ updLast l r := by
          unfold updLast
          split
          next => exact le_refl _
          next hcond =>
            have hcne : r.created_at ≠ "" := hne r (List.mem_cons_self _ _)
            push_neg at hcond
            exact le_of_not_lt (hcond hcne).2
        exact h1.trans (foldl_updLast_le rest _)
      · exact ih (updLast l r) (fun r2 h2 => hne r2 (List.mem_cons_of_mem _ h2)) c hc

/-- C6 (amended): each material's `avg_accuracy` is the mean of the
stored per-attempt accuracies over all of the material's attempts
(zero-denominator attempts included at their stored value, 0),
`last_attempt_at` is the maximum timestamp in the group, every row is
represented by a material entry, and the global average accuracy is the
mean of the per-material averages. -/
theorem C6_overview_aggregates (rows : List QPRow)
    (hts : ∀ r ∈ rows, r.created_at ≠ "") :
    (∀ m ∈ dashboard_overview_materials rows,
      rows.filter (fun r => r.material_id = m.material_id) ≠ []
      ∧ m.total_attempts = (rows.filter (fun r => r.material_id = m.material_id)).length
      ∧ m.avg_accuracy
          = ((rows.filter (fun r => r.material_id = m.material_id)).map
              (fun r => r.accuracy)).sum
            / ((rows.filter (fun r => r.material_id = m.material_id)).length : ℚ)
      ∧ m.last_attempt_at
          ∈ (rows.filter (fun r => r.material_id = m.material_id)).map
              (fun r => r.created_at)
      ∧ (∀ c ∈ (rows.filter (fun r => r.material_id = m.material_id)).map
            (fun r => r.created_at), c ≤ m.last_attempt_at))
    ∧ (∀ r ∈ rows, ∃ m ∈ dashboard_overview_materials rows,
        m.material_id = r.material_id)
    ∧ (rows ≠ [] →
        dashboard_overview_global_avg rows
          = ((dashboard_overview_materials rows).map (fun m => m.avg_accuracy)).sum
            / ((dashboard_overview_materials rows).length : ℚ)) := by
  have hkey : ∀ {k : String} {ms : MatSummary},
      (k, ms) ∈ groupFold (fun r => r.material_id) overviewInit overviewStep rows →
      ms.material_id = k
      ∧ rows.filter (fun r => r.material_id = k) ≠ []
      ∧ ms.total_attempts = (rows.filter (fun r => r.material_id = k)).length
      ∧ ms.accuracies
          = (rows.filter (fun r => r.material_id = k)).map (fun r => r.accuracy)
      ∧ ms.last_attempt_at
          ∈ (rows.filter (fun r => r.material_id = k)).map (fun r => r.created_at)
      ∧ (∀ c ∈ (rows.filter (fun r => r.material_id = k)).map (fun r => r.created_at),
          c ≤ ms.last_attempt_at) := by
    intro k ms hp
    obtain ⟨r0, g, hfil, hs⟩ := groupFold_entry_spec hp
    have hms : ms = (r0 :: g).foldl overviewStep (overviewInit r0) := by
      rw [List.foldl_cons]
      exact hs
    obtain ⟨f1, f2, f3, f4⟩ := overview_foldl_fields (r0 :: g) (overviewInit r0)
    have hsubgrp : ∀ r ∈ r0 :: g, r.created_at ≠ "" := by
      intro r hr
      have : r ∈ rows.filter (fun r => r.material_id = k) := hfil ▸ hr
      exact hts r (List.mem_filter.mp this).1
    refine ⟨?_, ?_, ?_, ?_, ?_, ?_⟩
    · have hmem0 : r0 ∈ rows.filter (fun r => r.material_id = k) := by
        rw [hfil]
        exact List.mem_cons_self _ _
      have hr0 : r0.material_id = k := by
        have := (List.mem_filter.mp hmem0).2
        simpa using this
      rw [hms, f1]
      exact hr0
    · rw [hfil]
      simp
    · rw [hms, f2, hfil]
      simp [overviewInit]
    · rw [hms, f3, hfil]
      rfl
    · rw [hms, f4, hfil]
      rcases foldl_updLast_mem (r0 :: g) (overviewInit r0).last_attempt_at with h | h
      · rw [h]
        exact List.mem_cons_self _ _
      · exact h
    · intro c hc
      rw [hms, f4]
      rw [hfil] at hc
      exact foldl_updLast_ge (r0 :: g) _ hsubgrp c hc
  refine ⟨?_, ?_, ?_⟩
  · intro m hm
    obtain ⟨p, hp, hrender⟩ := List.mem_map.mp hm
    obtain ⟨k, ms⟩ := p
    obtain ⟨g1, g2, g3, g4, g5, g6⟩ := hkey hp
    subst hrender
    show rows.filter (fun r => r.material_id = ms.material_id) ≠ []
      ∧ ms.total_attempts
          = (rows.filter (fun r => r.material_id = ms.material_id)).length
      ∧ overviewAvg ms
          = ((rows.filter (fun r => r.material_id = ms.material_id)).map
              (fun r => r.accuracy)).sum
            / ((rows.filter (fun r => r.material_id = ms.material_id)).length : ℚ)
      ∧ ms.last_attempt_at
          ∈ (rows.filter (fun r => r.material_id = ms.material_id)).map
              (fun r => r.created_at)
      ∧ (∀ c ∈ (rows.filter (fun r => r.material_id = ms.material_id)).map
            (fun r => r.created_at), c ≤ ms.last_attempt_at)
    rw [g1]
    refine ⟨g2, g3, ?_, g5, g6⟩
    unfold overviewAvg
    rw [g4, if_pos (fun hc => g2 (List.map_eq_nil_iff.mp hc))]
    rw [List.length_map]
  · intro r hr
    obtain ⟨s, hs⟩ :=
      groupFold_key_of_mem (fun r => r.material_id) overviewInit overviewStep rows r hr
    obtain ⟨g1, _⟩ := hkey hs
    refine ⟨{ material_id := s.material_id, total_attempts := s.total_attempts,
              avg_accuracy := overviewAvg s, last_attempt_at := s.last_attempt_at }, ?_, g1⟩
    exact List.mem_map.mpr ⟨(r.material_id, s), hs, rfl⟩
  · intro hne
    obtain ⟨r0, rest, rfl⟩ := List.exists_cons_of_ne_nil hne
    obtain ⟨s0, hs0⟩ :=
      groupFold_key_of_mem (fun r => r.material_id) overviewInit overviewStep (r0 :: rest)
        r0 (List.mem_cons_self _ _)
    unfold dashboard_overview_global_avg dashboard_overview_materials
    have hne2 : (materialsSummary (r0 :: rest)).map (fun p => overviewAvg p.2) ≠ [] := by
      intro hc
      rw [List.map_eq_nil_iff] at hc
      unfold materialsSummary at hc
      rw [hc] at hs0
      simp at hs0
    rw [if_pos hne2]
    simp only [List.map_map, List.length_map]
    rfl

/-- Mean of the per-attempt accuracy ratios taken only over attempts with
a nonzero denominator `correct + wrong`, following the specification's
stated exclusion policy for the overview aggregation; stated here only to
compare the source behaviour against the specification's words. -/
def specMaterialAvgAccuracy (rows : List QPRow) : ℚ :=
  let accs := (rows.filter (fun r => 0 < r.correct_answers + r.wrong_answers)).map
    (fun r => (r.correct_answers : ℚ) / ((r.correct_answers : ℚ) + (r.wrong_answers : ℚ)))
  if accs ≠ [] then accs.sum / (accs.length : ℚ) else 0

/-- An attempt row with one correct answer (stored accuracy 1). -/
def cexRowA : QPRow :=
  { user_id := "u", material_id := "m", correct_answers := 1, wrong_answers := 0,
    skipped := 0, total_questions := 1, score := 1, accuracy := 1, attempt_no := 1,
    created_at := "" }

/-- An all-skipped attempt row: `correct + wrong = 0`, stored accuracy
`0/1 = 0` as `quiz_performance` records it. -/
def cexRowB : QPRow :=
  { user_id := "u", material_id := "m", correct_answers := 0, wrong_answers := 0,
    skipped := 1, total_questions := 1, score := 0, accuracy := 0, attempt_no := 2,
    created_at := "" }

/-- C6 counterexample: over one fully-correct attempt and one all-skipped
attempt of the same material, the source's per-material average is 1/2
(the zero-denominator attempt counts as 0%), while the mean that excludes
zero-denominator attempts is 1. -/
theorem C6_counterexample :
    (dashboard_overview_materials [cexRowA, cexRowB]).map (fun m => m.avg_accuracy)
      = [1 / 2]
    ∧ specMaterialAvgAccuracy [cexRowA, cexRowB] = 1
    ∧ (1 / 2 : ℚ) ≠ 1 := by
  refine ⟨?_, ?_, by norm_num⟩
  · have h1 : materialsSummary [cexRowA, cexRowB]
        = [("m", { material_id := "m", total_attempts := 2, accuracies := [1, 0],
                   last_attempt_at := "" })] := by rfl
    unfold dashboard_overview_materials
    rw [h1]
    simp [overviewAvg]
  · unfold specMaterialAvgAccuracy
    have h2 : ([cexRowA, cexRowB].filter
        (fun r => 0 < r.correct_answers + r.wrong_answers)) = [cexRowA] := by rfl
    rw [h2]
    simp [cexRowA]

/-! ### User dashboard aggregation -/

theorem ud_foldl_fields :
    ∀ (rows : List QPRow) (st : UDState),
      (rows.foldl udStep st).overall_correct
          = st.overall_correct + (rows.map (fun r => r.correct_answers)).sum
      ∧ (rows.foldl udStep st).overall_total_q
          = st.overall_total_q + (rows.map rowTotalQ).sum
      ∧ (rows.foldl udStep st).sum_scores = st.sum_scores + (rows.map rowScore).sum
      ∧ (rows.foldl udStep st).sum_accuracy_frac
          = st.sum_accuracy_frac + (rows.map rowAcc).sum
      ∧ (rows.foldl udStep st).best_score
          = rows.foldl (fun b r => max b (rowScore r)) st.best_score
      ∧ (rows.foldl udStep st).best_accuracy
          = rows.foldl (fun b r => max b (rowAcc r)) st.best_accuracy
      ∧ (rows.foldl udStep st).by_date
          = rows.foldl (groupStep rowDateKey dateInit dateStep) st.by_date := by
  intro rows
  induction rows with
  | nil =>
      intro st
      refine ⟨by simp, by simp, by simp, by simp, rfl, rfl, rfl⟩
  | cons r rest ih =>
      intro st
      obtain ⟨h1, h2, h3, h4, h5, h6, h7⟩ := ih (udStep st r)
      refine ⟨?_, ?_, ?_, ?_, ?_, ?_, ?_⟩
      · rw [List.foldl_cons, h1, List.map_cons, List.sum_cons]
        show (st.overall_correct + r.correct_answers) + _ = _
        omega
      · rw [List.foldl_cons, h2, List.map_cons, List.sum_cons]
        show (st.overall_total_q + rowTotalQ r) + _ = _
        omega
      · rw [List.foldl_cons, h3, List.map_cons, List.sum_cons]
        show (st.sum_scores + rowScore r) + _ = _
        ring
      · rw [List.foldl_cons, h4, List.map_cons, List.sum_cons]
        show (st.sum_accuracy_frac + rowAcc r) + _ = _
        ring
      · rw [List.foldl_cons, h5]
        rfl
      · rw [List.foldl_cons, h6]
        rfl
      · rw [List.foldl_cons, h7]
        rfl

theorem foldl_max_seed_le (f : QPRow → ℚ) :
    ∀ (rows : List QPRow) (b : ℚ), b ≤ rows.foldl (fun b r => max b (f r)) b := by
  intro rows
  induction rows with
  | nil => intro b; exact le_refl b
  | cons r rest ih =>
      intro b
      exact le_trans (le_max_left _ _) (ih (max b (f r)))

theorem foldl_max_le_elem (f : QPRow → ℚ) :
    ∀ (rows : List QPRow) (b : ℚ) (r : QPRow), r ∈ rows →
      f r ≤ rows.foldl (fun b r => max b (f r)) b := by
  intro rows
  induction rows with
  | nil => intro b r hr; simp at hr
  | cons r0 rest ih =>
      intro b r hr
      rw [List.foldl_cons]
      rcases List.mem_cons.mp hr with rfl | hr
      · exact le_trans (le_max_right _ _) (foldl_max_seed_le f rest _)
      · exact ih _ r hr

theorem foldl_max_mem_or (f : QPRow → ℚ) :
    ∀ (rows : List QPRow) (b : ℚ),
      rows.foldl (fun b r => max b (f r)) b = b
      ∨ rows.foldl (fun b r => max b (f r)) b ∈ rows.map f := by
  intro rows
  induction rows with
  | nil => intro b; exact Or.inl rfl
  | cons r rest ih =>
      intro b
      rw [List.foldl_cons]
      rcases ih (max b (f r)) with h | h
      · rcases max_choice b (f r) with hm | hm
        · exact Or.inl (h.trans hm)
        · refine Or.inr ?_
          rw [List.map_cons, h, hm]
          exact List.mem_cons_self _ _
      · refine Or.inr ?_
        rw [List.map_cons]
        exact List.mem_cons_of_mem _ h

theorem foldl_max_zero_mem (f : QPRow → ℚ) (hf : ∀ r, 0 ≤ f r) :
    ∀ rows : List QPRow, rows ≠ [] →
      rows.foldl (fun b r => max b (f r)) 0 ∈ rows.map f := by
  intro rows hne
  rcases foldl_max_mem_or f rows 0 with h | h
  · obtain ⟨r0, rest, rfl⟩ := List.exists_cons_of_ne_nil hne
    have hle := foldl_max_le_elem f (r0 :: rest) 0 r0 (List.mem_cons_self _ _)
    rw [h] at hle
    have hz : f r0 = 0 := le_antisymm hle (hf r0)
    rw [h, ← hz]
    exact List.mem_map.mpr ⟨r0, List.mem_cons_self _ _, rfl⟩
  · exact h

theorem rowScore_nonneg (r : QPRow) : 0 ≤ rowScore r := Nat.cast_nonneg _

theorem rowAcc_nonneg (r : QPRow) : 0 ≤ rowAcc r := by
  unfold rowAcc
  split
  · exact div_nonneg (Nat.cast_nonneg _) (Nat.cast_nonneg _)
  · exact le_refl 0

theorem date_foldl_fields :
    ∀ (g : List QPRow) (d : DateAgg),
      (g.foldl dateStep d).attempts = d.attempts + g.length
      ∧ (g.foldl dateStep d).score = d.score + (g.map rowScore).sum
      ∧ (g.foldl dateStep d).acc = d.acc + (g.map rowAcc).sum := by
  intro g
  induction g with
  | nil => intro d; refine ⟨by simp, by simp, by simp⟩
  | cons r rest ih =>
      intro d
      obtain ⟨h1, h2, h3⟩ := ih (dateStep d r)
      refine ⟨?_, ?_, ?_⟩
      · rw [List.foldl_cons, h1]
        show (d.attempts + 1) + rest.length = d.attempts + (r :: rest).length
        simp only [List.length_cons]
        omega
      · rw [List.foldl_cons, h2, List.map_cons, List.sum_cons]
        show (d.score + rowScore r) + _ = _
        ring
      · rw [List.foldl_cons, h3, List.map_cons, List.sum_cons]
        show (d.acc + rowAcc r) + _ = _
        ring

set_option maxHeartbeats 1000000 in
/-- C8: the user dashboard computes its overall accuracy as a ratio of
sums, its average score and average accuracy as means (of per-attempt
scores and of per-attempt accuracy ratios — two distinct formulas), its
best score and best accuracy as running maxima, and emits the date
buckets, keyed by the first 10 characters of the timestamp, sorted
strictly ascending by date with per-bucket means over exactly the rows
of that calendar day. -/
theorem C8_user_dashboard (rows : List QPRow) (hne : rows ≠ []) :
    (user_dashboard_summary rows).total_attempts = rows.length
    ∧ (user_dashboard_summary rows).overall_accuracy
        = (if 0 < (rows.map rowTotalQ).sum
           then ((rows.map (fun r => r.correct_answers)).sum : ℚ)
             / ((rows.map rowTotalQ).sum : ℚ) * 100
           else 0)
    ∧ (user_dashboard_summary rows).avg_score
        = (rows.map rowScore).sum / (rows.length : ℚ)
    ∧ (user_dashboard_summary rows).avg_accuracy
        = (rows.map rowAcc).sum / (rows.length : ℚ) * 100
    ∧ (∀ r ∈ rows, rowScore r ≤ (user_dashboard_summary rows).best_score)
    ∧ (∃ r ∈ rows, (user_dashboard_summary rows).best_score = rowScore r)
    ∧ (∀ r ∈ rows, 100 * rowAcc r ≤ (user_dashboard_summary rows).best_accuracy)
    ∧ (∃ r ∈ rows, (user_dashboard_summary rows).best_accuracy = 100 * rowAcc r)
    ∧ (user_dashboard_by_date rows).Pairwise (fun a b => a.date < b.date)
    ∧ (∀ b ∈ user_dashboard_by_date rows,
        rows.filter (fun r => rowDateKey r = b.date) ≠ []
        ∧ b.attempts = (rows.filter (fun r => rowDateKey r = b.date)).length
        ∧ b.avg_score
            = ((rows.filter (fun r => rowDateKey r = b.date)).map rowScore).sum
              / ((rows.filter (fun r => rowDateKey r = b.date)).length : ℚ)
        ∧ b.avg_accuracy
            = ((rows.filter (fun r => rowDateKey r = b.date)).map rowAcc).sum
              / ((rows.filter (fun r => rowDateKey r = b.date)).length : ℚ) * 100)
    ∧ (∀ r ∈ rows, ∃ b ∈ user_dashboard_by_date rows, b.date = rowDateKey r) := by
  obtain ⟨h1, h2, h3, h4, h5, h6, h7⟩ :=
    ud_foldl_fields rows ⟨[], 0, 0, 0, 0, 0, 0, [], []⟩
  have hstate : user_dashboard_state rows
      = rows.foldl udStep ⟨[], 0, 0, 0, 0, 0, 0, [], []⟩ := rfl
  have hoc : (user_dashboard_state rows).overall_correct
      = (rows.map (fun r => r.correct_answers)).sum := by
    rw [hstate, h1]
    simp
  have hotq : (user_dashboard_state rows).overall_total_q = (rows.map rowTotalQ).sum := by
    rw [hstate, h2]
    simp
  have hss : (user_dashboard_state rows).sum_scores = (rows.map rowScore).sum := by
    rw [hstate, h3]
    show (0 : ℚ) + _ = _
    ring
  have hsa : (user_dashboard_state rows).sum_accuracy_frac = (rows.map rowAcc).sum := by
    rw [hstate, h4]
    show (0 : ℚ) + _ = _
    ring
  have hbs : (user_dashboard_state rows).best_score
      = rows.foldl (fun b r => max b (rowScore r)) 0 := by
    rw [hstate, h5]
  have hba : (user_dashboard_state rows).best_accuracy
      = rows.foldl (fun b r => max b (rowAcc r)) 0 := by
    rw [hstate, h6]
  have hbd : (user_dashboard_state rows).by_date
      = groupFold rowDateKey dateInit dateStep rows := by
    rw [hstate, h7]
    rfl
  have hlen : 0 < rows.length := List.length_pos.mpr hne
  have hbdkey : ∀ {k : String} {d : DateAgg},
      (k, d) ∈ groupFold rowDateKey dateInit dateStep rows →
      rows.filter (fun r => rowDateKey r = k) ≠ []
      ∧ d.attempts = (rows.filter (fun r => rowDateKey r = k)).length
      ∧ d.score = ((rows.filter (fun r => rowDateKey r = k)).map rowScore).sum
      ∧ d.acc = ((rows.filter (fun r => rowDateKey r = k)).map rowAcc).sum := by
    intro k d hp
    obtain ⟨r0, g, hfil, hs⟩ := groupFold_entry_spec hp
    have hd : d = (r0 :: g).foldl dateStep ⟨0, 0, 0⟩ := by
      rw [List.foldl_cons]
      exact hs
    obtain ⟨f1, f2, f3⟩ := date_foldl_fields (r0 :: g) ⟨0, 0, 0⟩
    refine ⟨by rw [hfil]; simp, ?_, ?_, ?_⟩
    · rw [hd, f1, hfil]
      simp
    · rw [hd, f2, hfil]
      show (0 : ℚ) + _ = _
      ring
    · rw [hd, f3, hfil]
      show (0 : ℚ) + _ = _
      ring
  refine ⟨rfl, ?_, ?_, ?_, ?_, ?_, ?_, ?_, ?_, ?_, ?_⟩
  · show (if 0 < (user_dashboard_state rows).overall_total_q
        then ((user_dashboard_state rows).overall_correct : ℚ)
          / ((user_dashboard_state rows).overall_total_q : ℚ) * 100
        else 0) = _
    rw [hoc, hotq]
    split_ifs
    · rw [Nat.cast_list_sum, List.map_map]
      rfl
    · rfl
  · show (user_dashboard_state rows).sum_scores / (rows.length : ℚ) = _
    rw [hss]
  · show (if 0 < rows.length
        then (user_dashboard_state rows).sum_accuracy_frac / (rows.length : ℚ) * 100
        else 0) = _
    rw [if_pos hlen, hsa]
  · intro r hr
    show rowScore r ≤ (user_dashboard_state rows).best_score
    rw [hbs]
    exact foldl_max_le_elem rowScore rows 0 r hr
  · have hmem := foldl_max_zero_mem rowScore rowScore_nonneg rows hne
    rw [← hbs] at hmem
    obtain ⟨r, hr, hrv⟩ := List.mem_map.mp hmem
    exact ⟨r, hr, hrv.symm⟩
  · intro r hr
    show 100 * rowAcc r ≤ (user_dashboard_state rows).best_accuracy * 100
    have := foldl_max_le_elem rowAcc rows 0 r hr
    rw [← hba] at this
    linarith
  · have hmem := foldl_max_zero_mem rowAcc rowAcc_nonneg rows hne
    rw [← hba] at hmem
    obtain ⟨r, hr, hrv⟩ := List.mem_map.mp hmem
    refine ⟨r, hr, ?_⟩
    show (user_dashboard_state rows).best_accuracy * 100 = 100 * rowAcc r
    rw [← hrv]
    ring
  · unfold user_dashboard_by_date
    have hsorted := List.sorted_insertionSort dateKeyLe (user_dashboard_state rows).by_date
    have hperm := List.perm_insertionSort dateKeyLe (user_dashboard_state rows).by_date
    have hnd : (((user_dashboard_state rows).by_date).map Prod.fst).Nodup := by
      rw [hbd]
      exact groupFold_keys_nodup _ _ _ rows
    have hndsorted :
        ((((user_dashboard_state rows).by_date.insertionSort dateKeyLe)).map Prod.fst).Nodup :=
      ((hperm.map Prod.fst).nodup_iff).mpr hnd
    have hpairNe := List.pairwise_map.mp hndsorted
    have hpairLt := (hsorted.and hpairNe).imp
      (fun h => lt_of_le_of_ne h.1 h.2)
    exact List.pairwise_map.mpr hpairLt
  · intro b hb
    unfold user_dashboard_by_date at hb
    obtain ⟨p, hp, hrender⟩ := List.mem_map.mp hb
    obtain ⟨k, d⟩ := p
    have hpmem : (k, d) ∈ groupFold rowDateKey dateInit dateStep rows := by
      rw [← hbd]
      exact (List.perm_insertionSort dateKeyLe _).mem_iff.mp hp
    obtain ⟨g1, g2, g3, g4⟩ := hbdkey hpmem
    subst hrender
    show rows.filter (fun r => rowDateKey r = k) ≠ [] ∧ _ ∧ _ ∧ _
    refine ⟨g1, g2, ?_, ?_⟩
    · show d.score / (d.attempts : ℚ) = _
      rw [g3, g2]
    · show d.acc / (d.attempts : ℚ) * 100 = _
      rw [g4, g2]
  · intro r hr
    obtain ⟨d, hd⟩ := groupFold_key_of_mem rowDateKey dateInit dateStep rows r hr
    rw [← hbd] at hd
    generalize rowDateKey r = k at hd ⊢
    have hd2 : (k, d)
        ∈ (user_dashboard_state rows).by_date.insertionSort dateKeyLe :=
      (List.perm_insertionSort dateKeyLe _).mem_iff.mpr hd
    unfold user_dashboard_by_date
    exact ⟨_, List.mem_map_of_mem _ hd2, rfl⟩

/-! ### Concrete witness inputs -/

/-- The result of one concrete successful scoring run: `cexQuizTwo`
scored with one correct answer and one skip on a fresh material. -/
def wPair : QuizStats × AttemptItem :=
  match quiz_performance cexQuizTwo cexEmptyStats cexAnswersSkip "" none "t" with
  | Except.ok p => p
  | Except.error _ => (default, default)

theorem wPair_ok : quiz_performance cexQuizTwo cexEmptyStats cexAnswersSkip "" none "t"
    = Except.ok (wPair.1, wPair.2) := by
  cases hqp : quiz_performance cexQuizTwo cexEmptyStats cexAnswersSkip "" none "t" with
  | error e =>
      unfold quiz_performance at hqp
      dsimp only at hqp
      rw [if_neg (by decide :
        ¬ attemptIndicesOf (qpModeOf "") none cexQuizTwo.length = [])] at hqp
      exact absurd hqp (by simp)
  | ok p =>
      unfold wPair
      rw [hqp]

/-- A submission that skips every question. -/
def cexAnswersNone : Nat → Option String := fun _ => none

/-- A revision index list with an out-of-range entry, a negative entry
and a duplicate. -/
def wRaw : List Int := [1, 0, 5, -1, 1]

/-- C1 witness: the scoring run of `wPair` satisfies the partition and
accuracy equations. -/
theorem C1_evaluate_partition_witness :
    (quiz_performance cexQuizTwo cexEmptyStats cexAnswersSkip "" none "t"
        = Except.ok (wPair.1, wPair.2))
    ∧ ((∀ i : Nat,
        ((if outSkipped cexAnswersSkip i then 1 else 0)
          + (if outCorrect cexQuizTwo cexAnswersSkip i then 1 else 0)
          + (if outWrong cexQuizTwo cexAnswersSkip i then 1 else 0) : Nat) = 1)
      ∧ wPair.2.correct
          = (attemptIndicesOf (qpModeOf "") none cexQuizTwo.length).countP
              (fun i => outCorrect cexQuizTwo cexAnswersSkip i)
      ∧ wPair.2.wrong
          = (attemptIndicesOf (qpModeOf "") none cexQuizTwo.length).countP
              (fun i => outWrong cexQuizTwo cexAnswersSkip i)
      ∧ wPair.2.skipped
          = (attemptIndicesOf (qpModeOf "") none cexQuizTwo.length).countP
              (fun i => outSkipped cexAnswersSkip i)
      ∧ wPair.2.correct + wPair.2.wrong + wPair.2.skipped = wPair.2.total_questions
      ∧ wPair.2.total_questions
          = (attemptIndicesOf (qpModeOf "") none cexQuizTwo.length).length
      ∧ wPair.2.score = (wPair.2.correct : ℚ)
      ∧ wPair.2.accuracy = (wPair.2.correct : ℚ) / (wPair.2.total_questions : ℚ)) :=
  ⟨wPair_ok, C1_evaluate_partition cexQuizTwo cexEmptyStats cexAnswersSkip "" none "t"
    wPair.1 wPair.2 wPair_ok⟩

/-- C2 witness: after the scoring run of `wPair` the rebuilt unsolved
list is exactly the filter of the whole quiz. -/
theorem C2_last_unsolved_witness :
    (quiz_performance cexQuizTwo cexEmptyStats cexAnswersSkip "" none "t"
        = Except.ok (wPair.1, wPair.2))
    ∧ wPair.1.last_unsolved.map (fun e => e.index)
        = (List.range cexQuizTwo.length).filter
            (fun idx => decide (0 < (pqGetD wPair.1.per_question idx).attempts
              ∧ (pqGetD wPair.1.per_question idx).correct = 0)) :=
  ⟨wPair_ok, C2_last_unsolved cexQuizTwo cexEmptyStats cexAnswersSkip "" none "t"
    wPair.1 wPair.2 wPair_ok⟩

/-- C3 witness: the selection properties hold on the concrete stats
mapping `cexPerQuestion`. -/
theorem C3_revision_select_witness :
    (cexPerQuestion.map Prod.fst).Nodup
    ∧ ((revision_quiz cexQuizTwo cexPerQuestion 10).length ≤ 10
      ∧ (revision_quiz cexQuizTwo cexPerQuestion 10).Sublist (cexPerQuestion.map Prod.fst)
      ∧ (∀ i ∈ revision_quiz cexQuizTwo cexPerQuestion 10,
          i < cexQuizTwo.length ∧ needs_revision (pqGetD cexPerQuestion i))
      ∧ ((∀ p ∈ cexPerQuestion, ¬ needs_revision p.2) →
          revision_quiz cexQuizTwo cexPerQuestion 10 = [])
      ∧ ((cexPerQuestion.map Prod.fst).Pairwise (· < ·) →
          (revision_quiz cexQuizTwo cexPerQuestion 10).Pairwise (· < ·))) :=
  ⟨by decide, C3_revision_select cexQuizTwo cexPerQuestion 10 (by decide)⟩

/-- C4 witness: fold properties at index 0 of a concrete pair of
attempts. -/
theorem C4_fold_witness :
    (([0, 1] : List Nat).Nodup ∧ ([1] : List Nat).Nodup ∧ 0 ∈ ([0, 1] : List Nat))
    ∧ (((pqGetD (evalAttempt cexQuizTwo cexAnswersSkip [] [0, 1]).per_question 0).attempts
          = (pqGetD [] 0).attempts + 1)
      ∧ ((pqGetD (evalAttempt cexQuizTwo cexAnswersSkip [] [0, 1]).per_question 0).skipped
          = (pqGetD [] 0).skipped + (if outSkipped cexAnswersSkip 0 then 1 else 0))
      ∧ ((pqGetD (evalAttempt cexQuizTwo cexAnswersSkip [] [0, 1]).per_question 0).correct
          = (pqGetD [] 0).correct + (if outCorrect cexQuizTwo cexAnswersSkip 0 then 1 else 0))
      ∧ (∀ j : Nat,
          (pqGetD [] j).attempts
              ≤ (pqGetD (evalAttempt cexQuizTwo cexAnswersSkip [] [0, 1]).per_question j).attempts
          ∧ (pqGetD [] j).correct
              ≤ (pqGetD (evalAttempt cexQuizTwo cexAnswersSkip [] [0, 1]).per_question j).correct
          ∧ (pqGetD [] j).skipped
              ≤ (pqGetD (evalAttempt cexQuizTwo cexAnswersSkip [] [0, 1]).per_question j).skipped)
      ∧ (∀ j : Nat,
          pqGetD (evalAttempt cexQuizTwo cexAnswersNone
            (evalAttempt cexQuizTwo cexAnswersSkip [] [0, 1]).per_question [1]).per_question j
            = pqGetD (evalAttempt cexQuizTwo cexAnswersSkip
                (evalAttempt cexQuizTwo cexAnswersNone [] [1]).per_question [0, 1]).per_question j)) :=
  ⟨⟨by decide, by decide, by decide⟩,
    C4_fold_monotone_commutative cexQuizTwo cexAnswersSkip cexAnswersNone [0, 1] [1] [] 0
      (by decide) (by decide) (by decide)⟩

/-- C5 witness: the recorded accuracy facts at the scoring run of
`wPair`. -/
theorem C5_recorded_accuracy_witness :
    (quiz_performance cexQuizTwo cexEmptyStats cexAnswersSkip "" none "t"
        = Except.ok (wPair.1, wPair.2))
    ∧ (wPair.2.accuracy = (wPair.2.correct : ℚ) / (wPair.2.total_questions : ℚ)
      ∧ wPair.2.total_questions = wPair.2.correct + wPair.2.wrong + wPair.2.skipped
      ∧ (∀ rows : List QPRow, ∀ e ∈ dashboard_material_history rows,
          e.accuracy
            = if 0 < e.correct + e.wrong
              then (e.correct : ℚ) / ((e.correct : ℚ) + (e.wrong : ℚ)) else 0)) :=
  ⟨wPair_ok, C5_recorded_accuracy cexQuizTwo cexEmptyStats cexAnswersSkip "" none "t"
    wPair.1 wPair.2 wPair_ok⟩

/-- An attempt row with a nonempty timestamp for the aggregation
witnesses. -/
def wRowA : QPRow :=
  { user_id := "u", material_id := "m1", correct_answers := 8, wrong_answers := 2,
    skipped := 0, total_questions := 10, score := 8, accuracy := 4 / 5, attempt_no := 1,
    created_at := "2024-01-01T10:00:00" }

/-- A second attempt row, on another day. -/
def wRowB : QPRow :=
  { user_id := "u", material_id := "m2", correct_answers := 3, wrong_answers := 7,
    skipped := 0, total_questions := 10, score := 3, accuracy := 3 / 10, attempt_no := 1,
    created_at := "2024-01-02T10:00:00" }

/-- C6 witness: overview aggregation over two concrete rows with
nonempty timestamps. -/
theorem C6_overview_aggregates_witness :
    (∀ r ∈ [wRowA, wRowB], r.created_at ≠ "")
    ∧ ((∀ m ∈ dashboard_overview_materials [wRowA, wRowB],
        [wRowA, wRowB].filter (fun r => r.material_id = m.material_id) ≠ []
        ∧ m.total_attempts
            = ([wRowA, wRowB].filter (fun r => r.material_id = m.material_id)).length
        ∧ m.avg_accuracy
            = (([wRowA, wRowB].filter (fun r => r.material_id = m.material_id)).map
                (fun r => r.accuracy)).sum
              / (([wRowA, wRowB].filter (fun r => r.material_id = m.material_id)).length : ℚ)
        ∧ m.last_attempt_at
            ∈ ([wRowA, wRowB].filter (fun r => r.material_id = m.material_id)).map
                (fun r => r.created_at)
        ∧ (∀ c ∈ ([wRowA, wRowB].filter (fun r => r.material_id = m.material_id)).map
              (fun r => r.created_at), c ≤ m.last_attempt_at))
      ∧ (∀ r ∈ [wRowA, wRowB], ∃ m ∈ dashboard_overview_materials [wRowA, wRowB],
          m.material_id = r.material_id)
      ∧ ([wRowA, wRowB] ≠ [] →
          dashboard_overview_global_avg [wRowA, wRowB]
            = ((dashboard_overview_materials [wRowA, wRowB]).map
                (fun m => m.avg_accuracy)).sum
              / ((dashboard_overview_materials [wRowA, wRowB]).length : ℚ))) :=
  ⟨by decide, C6_overview_aggregates [wRowA, wRowB] (by decide)⟩

/-- C7 witness: index filtering on `wRaw`, which has a duplicate, a
negative entry and an out-of-range entry. -/
theorem C7_revision_indices_witness :
    (wRaw ≠ [])
    ∧ ((attemptIndicesOf "revision" (some wRaw) cexQuizTwo.length
          = pyDedup [] (wRaw.filterMap (inRangeIndex cexQuizTwo.length)))
      ∧ (attemptIndicesOf "revision" (some wRaw) cexQuizTwo.length).Nodup
      ∧ (attemptIndicesOf "revision" (some wRaw) cexQuizTwo.length).Sublist
          (wRaw.filterMap (inRangeIndex cexQuizTwo.length))
      ∧ (∀ x : Nat, x ∈ attemptIndicesOf "revision" (some wRaw) cexQuizTwo.length
          ↔ x ∈ wRaw.filterMap (inRangeIndex cexQuizTwo.length))
      ∧ (∀ x : Nat, x ∈ wRaw.filterMap (inRangeIndex cexQuizTwo.length)
          ↔ ∃ r ∈ wRaw, (0 ≤ r ∧ r < (cexQuizTwo.length : Int)) ∧ r.toNat = x)
      ∧ attemptIndicesOf "revision" none cexQuizTwo.length = List.range cexQuizTwo.length
      ∧ attemptIndicesOf "revision" (some ([] : List Int)) cexQuizTwo.length
          = List.range cexQuizTwo.length
      ∧ ((∃ e, quiz_performance cexQuizTwo cexEmptyStats cexAnswersSkip "revision"
            (some wRaw) "t" = Except.error e)
          ↔ attemptIndicesOf (qpModeOf "revision") (some wRaw) cexQuizTwo.length = [])) :=
  ⟨by decide, C7_revision_indices cexQuizTwo cexEmptyStats cexAnswersSkip "revision"
    (some wRaw) "t" wRaw (by decide)⟩

/-- C8 witness: the user dashboard aggregation over the two rows of the
specification's worked scenario. -/
theorem C8_user_dashboard_witness :
    (([wRowA, wRowB] : List QPRow) ≠ [])
    ∧ ((user_dashboard_summary [wRowA, wRowB]).total_attempts = [wRowA, wRowB].length
      ∧ (user_dashboard_summary [wRowA, wRowB]).overall_accuracy
          = (if 0 < ([wRowA, wRowB].map rowTotalQ).sum
             then (([wRowA, wRowB].map (fun r => r.correct_answers)).sum : ℚ)
               / (([wRowA, wRowB].map rowTotalQ).sum : ℚ) * 100
             else 0)
      ∧ (user_dashboard_summary [wRowA, wRowB]).avg_score
          = ([wRowA, wRowB].map rowScore).sum / (([wRowA, wRowB] : List QPRow).length : ℚ)
      ∧ (user_dashboard_summary [wRowA, wRowB]).avg_accuracy
          = ([wRowA, wRowB].map rowAcc).sum / (([wRowA, wRowB] : List QPRow).length : ℚ) * 100
      ∧ (∀ r ∈ [wRowA, wRowB], rowScore r ≤ (user_dashboard_summary [wRowA, wRowB]).best_score)
      ∧ (∃ r ∈ [wRowA, wRowB], (user_dashboard_summary [wRowA, wRowB]).best_score = rowScore r)
      ∧ (∀ r ∈ [wRowA, wRowB],
          100 * rowAcc r ≤ (user_dashboard_summary [wRowA, wRowB]).best_accuracy)
      ∧ (∃ r ∈ [wRowA, wRowB],
          (user_dashboard_summary [wRowA, wRowB]).best_accuracy = 100 * rowAcc r)
      ∧ (user_dashboard_by_date [wRowA, wRowB]).Pairwise (fun a b => a.date < b.date)
      ∧ (∀ b ∈ user_dashboard_by_date [wRowA, wRowB],
          [wRowA, wRowB].filter (fun r => rowDateKey r = b.date) ≠ []
          ∧ b.attempts = ([wRowA, wRowB].filter (fun r => rowDateKey r = b.date)).length
          ∧ b.avg_score
              = (([wRowA, wRowB].filter (fun r => rowDateKey r = b.date)).map rowScore).sum
                / (([wRowA, wRowB].filter (fun r => rowDateKey r = b.date)).length : ℚ)
          ∧ b.avg_accuracy
              = (([wRowA, wRowB].filter (fun r => rowDateKey r = b.date)).map rowAcc).sum
                / (([wRowA, wRowB].filter (fun r => rowDateKey r = b.date)).length : ℚ) * 100)
      ∧ (∀ r ∈ [wRowA, wRowB], ∃ b ∈ user_dashboard_by_date [wRowA, wRowB],
          b.date = rowDateKey r)) :=
  ⟨by decide, C8_user_dashboard [wRowA, wRowB] (by decide)⟩

/-- C9 witness: the append facts at the scoring run of `wPair`, whose
starting history is empty (vacuously sequential). -/
theorem C9_history_append_witness :
    ((quiz_performance cexQuizTwo cexEmptyStats cexAnswersSkip "" none "t"
        = Except.ok (wPair.1, wPair.2))
      ∧ (∀ k, k < cexEmptyStats.history.length →
          (cexEmptyStats.history.getD k default).attempt_no = k + 1))
    ∧ (wPair.1.history = cexEmptyStats.history ++ [wPair.2]
      ∧ wPair.2.attempt_no = cexEmptyStats.history.length + 1
      ∧ (∀ k, k < cexEmptyStats.history.length →
          wPair.1.history.getD k default = cexEmptyStats.history.getD k default)
      ∧ (∀ k, k < wPair.1.history.length →
          (wPair.1.history.getD k default).attempt_no = k + 1)) :=
  ⟨⟨wPair_ok, by intro k hk; simp [cexEmptyStats] at hk⟩,
    C9_history_append cexQuizTwo cexEmptyStats cexAnswersSkip "" none "t"
      wPair.1 wPair.2 wPair_ok (by intro k hk; simp [cexEmptyStats] at hk)⟩

/-- C10 witness: the frame facts at the scoring run of `wPair`. -/
theorem C10_frame_witness :
    (quiz_performance cexQuizTwo cexEmptyStats cexAnswersSkip "" none "t"
        = Except.ok (wPair.1, wPair.2))
    ∧ ((∀ j : Nat, j ∉ attemptIndicesOf (qpModeOf "") none cexQuizTwo.length →
        lookupA j wPair.1.per_question = lookupA j cexEmptyStats.per_question)
      ∧ ∀ m : Material, (updateMaterialStats m wPair.1).quiz = m.quiz) :=
  ⟨wPair_ok, C10_frame cexQuizTwo cexEmptyStats cexAnswersSkip "" none "t"
    wPair.1 wPair.2 wPair_ok⟩

end AITution
